import Mathlib

/-!
Verification of the Apstra provisioning automation framework
(`tools/python/utils.py`) against its natural-language specification.

The development shallowly embeds the parts of `utils.py` that the claims
C1-C10 are about:

* the diff/reconciliation engine (`process_diff` and its helpers,
  `get_value_at_path`, `extract_segments`, `find_nested_dict_entry`);
* the execution-directory rotation (`manage_execution_dirs`, initial stage);
* the Time Voyager revision quota logic of `deploy_bp` /
  `get_oldest_revision` / `get_permanent_revisions`;
* the retry/poll protocol of `deploy_bp`, `revert_bp` and `delete_bp`;
* the blueprint phase of `revert_execution` and `scan_blueprints`;
* the rollback cleanup `remove_non_bp_added`;
* the rollback-candidate filter `get_project_rollback_history`;
* the terminal handler `exit_manager` together with
  `commit_wip_executions`.

YAML documents are modelled by the inductive `Yaml`; Python dictionaries
are association lists that keep insertion order, matching Python dict
semantics (first occurrence wins on lookup, iteration follows insertion
order).  DeepDiff paths such as `root[A][0][name]` are modelled
structurally as lists of segments; the Python code manipulates their
rendered string form, and for well-formed paths (keys free of bracket and
quote characters, which holds for every Apstra object type and attribute
name) the string surgery performed by the source computes exactly the
structural operations used here.  Filesystem and HTTP side effects are
modelled by explicit state values and by response streams indexed by the
order in which requests are issued.
-/

namespace APAF

/-- A YAML value, as produced by `yaml.safe_load` in the source.
Dictionaries are insertion-ordered association lists. -/
inductive Yaml where
  | null
  | str (s : String)
  | nat (n : Nat)
  | bool (b : Bool)
  | list (xs : List Yaml)
  | dict (kvs : List (String × Yaml))
deriving Repr

mutual

def Yaml.decEq : (a b : Yaml) → Decidable (a = b)
  | .null, .null => isTrue rfl
  | .str s, .str t =>
    if h : s = t then isTrue (by rw [h]) else isFalse (fun hh => h (Yaml.str.inj hh))
  | .nat m, .nat n =>
    if h : m = n then isTrue (by rw [h]) else isFalse (fun hh => h (Yaml.nat.inj hh))
  | .bool x, .bool y =>
    if h : x = y then isTrue (by rw [h]) else isFalse (fun hh => h (Yaml.bool.inj hh))
  | .list xs, .list ys =>
    match Yaml.decEqList xs ys with
    | isTrue h => isTrue (by rw [h])
    | isFalse h => isFalse (fun hh => h (Yaml.list.inj hh))
  | .dict xs, .dict ys =>
    match Yaml.decEqKVs xs ys with
    | isTrue h => isTrue (by rw [h])
    | isFalse h => isFalse (fun hh => h (Yaml.dict.inj hh))
  | .null, .str _ => isFalse (fun h => Yaml.noConfusion h)
  | .null, .nat _ => isFalse (fun h => Yaml.noConfusion h)
  | .null, .bool _ => isFalse (fun h => Yaml.noConfusion h)
  | .null, .list _ => isFalse (fun h => Yaml.noConfusion h)
  | .null, .dict _ => isFalse (fun h => Yaml.noConfusion h)
  | .str _, .null => isFalse (fun h => Yaml.noConfusion h)
  | .str _, .nat _ => isFalse (fun h => Yaml.noConfusion h)
  | .str _, .bool _ => isFalse (fun h => Yaml.noConfusion h)
  | .str _, .list _ => isFalse (fun h => Yaml.noConfusion h)
  | .str _, .dict _ => isFalse (fun h => Yaml.noConfusion h)
  | .nat _, .null => isFalse (fun h => Yaml.noConfusion h)
  | .nat _, .str _ => isFalse (fun h => Yaml.noConfusion h)
  | .nat _, .bool _ => isFalse (fun h => Yaml.noConfusion h)
  | .nat _, .list _ => isFalse (fun h => Yaml.noConfusion h)
  | .nat _, .dict _ => isFalse (fun h => Yaml.noConfusion h)
  | .bool _, .null => isFalse (fun h => Yaml.noConfusion h)
  | .bool _, .str _ => isFalse (fun h => Yaml.noConfusion h)
  | .bool _, .nat _ => isFalse (fun h => Yaml.noConfusion h)
  | .bool _, .list _ => isFalse (fun h => Yaml.noConfusion h)
  | .bool _, .dict _ => isFalse (fun h => Yaml.noConfusion h)
  | .list _, .null => isFalse (fun h => Yaml.noConfusion h)
  | .list _, .str _ => isFalse (fun h => Yaml.noConfusion h)
  | .list _, .nat _ => isFalse (fun h => Yaml.noConfusion h)
  | .list _, .bool _ => isFalse (fun h => Yaml.noConfusion h)
  | .list _, .dict _ => isFalse (fun h => Yaml.noConfusion h)
  | .dict _, .null => isFalse (fun h => Yaml.noConfusion h)
  | .dict _, .str _ => isFalse (fun h => Yaml.noConfusion h)
  | .dict _, .nat _ => isFalse (fun h => Yaml.noConfusion h)
  | .dict _, .bool _ => isFalse (fun h => Yaml.noConfusion h)
  | .dict _, .list _ => isFalse (fun h => Yaml.noConfusion h)

def Yaml.decEqList : (a b : List Yaml) → Decidable (a = b)
  | [], [] => isTrue rfl
  | [], _ :: _ => isFalse (fun h => List.noConfusion h)
  | _ :: _, [] => isFalse (fun h => List.noConfusion h)
  | x :: xs, y :: ys =>
    match Yaml.decEq x y, Yaml.decEqList xs ys with
    | isTrue h1, isTrue h2 => isTrue (by rw [h1, h2])
    | isFalse h1, _ => isFalse (fun hh => h1 (List.cons.inj hh).1)
    | _, isFalse h2 => isFalse (fun hh => h2 (List.cons.inj hh).2)

def Yaml.decEqKVs : (a b : List (String × Yaml)) → Decidable (a = b)
  | [], [] => isTrue rfl
  | [], _ :: _ => isFalse (fun h => List.noConfusion h)
  | _ :: _, [] => isFalse (fun h => List.noConfusion h)
  | (k, v) :: xs, (k2, v2) :: ys =>
    match String.decEq k k2, Yaml.decEq v v2, Yaml.decEqKVs xs ys with
    | isTrue h0, isTrue h1, isTrue h2 => isTrue (by rw [h0, h1, h2])
    | isFalse h0, _, _ => isFalse (fun hh => h0 (congrArg Prod.fst (List.cons.inj hh).1))
    | _, isFalse h1, _ => isFalse (fun hh => h1 (congrArg Prod.snd (List.cons.inj hh).1))
    | _, _, isFalse h2 => isFalse (fun hh => h2 (List.cons.inj hh).2)

end

instance : DecidableEq Yaml := Yaml.decEq

/-- Python `d.get(k)` on a dictionary value: first binding of the key, if any.
On non-dictionary values the source raises (and the caller catches); modelled
as `none`. -/
def Yaml.get? : Yaml → String → Option Yaml
  | .dict kvs, k => (kvs.find? (fun p => p.1 == k)).map Prod.snd
  | _, _ => none

/-- Python truthiness of a YAML value (`if x:`). -/
def Yaml.truthy : Yaml → Bool
  | .null => false
  | .str s => s != ""
  | .nat n => n != 0
  | .bool b => b
  | .list xs => !xs.isEmpty
  | .dict kvs => !kvs.isEmpty

/-- The bindings of a dictionary value (empty for non-dictionaries). -/
def Yaml.kvs : Yaml → List (String × Yaml)
  | .dict kvs => kvs
  | _ => []

/-! ## DeepDiff paths

A DeepDiff change path such as `root[A][0][name]` is a sequence of
dictionary keys and list indices after `root`.  The source manipulates the
rendered string; for well-formed paths the string operations it performs
(`split`, `extract_segments`, the regex of `get_value_at_path`) compute the
structural operations defined below. -/

/-- One segment of a DeepDiff path: a dictionary key or a list index. -/
inductive Seg where
  | key (s : String)
  | idx (n : Nat)
deriving DecidableEq, Repr

/-- A DeepDiff change path, with the leading `root` stripped. -/
abbrev DiffPath := List Seg

/-- `get_value_at_path` (utils.py): walk a nested structure along a path.
Any lookup failure, or reaching a null value, yields `none` (the source
returns `None` there, catching the lookup exceptions). -/
def get_value_at_path : Yaml → DiffPath → Option Yaml
  | y, [] => some y
  | y, Seg.key k :: rest =>
    match y.get? k with
    | some v => get_value_at_path v rest
    | none => none
  | y, Seg.idx n :: rest =>
    match y with
    | .list xs =>
      match xs.get? n with
      | some v => get_value_at_path v rest
      | none => none
    | _ => none

/-- `extract_segments(path, num_segments)` (utils.py): the prefix of a path
up to the given number of closing brackets, i.e. its first segments. -/
def extract_segments (p : DiffPath) (numSegments : Nat) : DiffPath :=
  p.take numSegments

/-- The object type addressed by a change path:
the source splits the rendered path string on the bracket-quote pairs and
extracts the first dictionary key appearing in the path. -/
def firstKeyOf : DiffPath → String
  | [] => ""
  | Seg.key s :: _ => s
  | Seg.idx _ :: rest => firstKeyOf rest

/-- The source compares the final bracketed component of the rendered
path string against the quoted attribute name: the last path segment is
the dictionary key `name`. -/
def lastSegIsName (p : DiffPath) : Bool :=
  match p.getLast? with
  | some (Seg.key s) => s == "name"
  | _ => false

/-- `find_nested_dict_entry` (utils.py): first entry of the list stored
under `objectKey` whose attribute `key` equals `value`. -/
def find_nested_dict_entry (nested : Yaml) (objectKey key : String) (value : Yaml) :
    Option Yaml :=
  match nested.get? objectKey with
  | some (.list entries) => entries.find? (fun e => ((e.get? key).getD .null) == value)
  | _ => none

/-- Python dictionary union `a | b`: keys of `a` in order (values overridden
by `b` where both bind the key), then the keys of `b` not in `a`. -/
def pyDictUnion (a b : List (String × Yaml)) : List (String × Yaml) :=
  (a.map (fun p =>
      match b.find? (fun q => q.1 == p.1) with
      | some q => (p.1, q.2)
      | none => p))
    ++ b.filter (fun q => !(a.any (fun p => p.1 == q.1)))

/-! ## The diff/reconciliation engine: `process_diff` -/

/-- One bucket of the structured diff result:
`added` / `changed` / `removed`. -/
structure Buckets where
  added : List Yaml
  changed : List Yaml
  removed : List Yaml
deriving DecidableEq, Repr

/-- The empty bucket created on first sight of an object type. -/
def Buckets.empty : Buckets := ⟨[], [], []⟩

/-- The result of `process_diff`: an insertion-ordered mapping from object
type to its buckets. -/
abbrev DiffResults := List (String × Buckets)

/-- `if apstra_object not in results: results[apstra_object] = {...}`. -/
def ensureKey (rs : DiffResults) (k : String) : DiffResults :=
  if rs.any (fun p => p.1 == k) then rs else rs ++ [(k, Buckets.empty)]

/-- In-place mutation of the buckets stored under a key. -/
def updateKey (rs : DiffResults) (k : String) (f : Buckets → Buckets) : DiffResults :=
  rs.map (fun p => if p.1 == k then (p.1, f p.2) else p)

/-- The body of one DeepDiff change-type entry.  Most change types map each
path to a details dictionary (`detailMap`, paths with details); the types
`dictionary_item_added` and `dictionary_item_removed` are bare path lists
(`pathList`).  The path `root` itself is the empty path. -/
inductive DiffEntryBody where
  | detailMap (cs : List (DiffPath × Yaml))
  | pathList (ps : List DiffPath)
deriving Repr

/-- A DeepDiff result as consumed by `process_diff`: an insertion-ordered
mapping from change type to its body. -/
abbrev DeepDiffOutput := List (String × DiffEntryBody)

def added_types : List String :=
  ["dictionary_item_added", "iterable_item_added", "attribute_added", "set_item_added"]

def changed_types : List String :=
  ["values_changed", "type_changes", "repetition_change"]

def removed_types : List String :=
  ["dictionary_item_removed", "iterable_item_removed", "attribute_removed", "set_item_removed"]

/-- First-execution handling in `process_diff`, dictionary case: a
dictionary item contributes its `user_defined` list to `added`. -/
def firstExecAddUserDefined (rs : DiffResults) (k : String) : Option Yaml → DiffResults
  | some (.list ud) => updateKey rs k (fun b => { b with added := b.added ++ ud })
  | _ => rs

/-- First-execution handling in `process_diff`: one item of the new root
value.  Lists are appended to `added` wholesale; dictionaries contribute
their `user_defined` list. -/
def firstExecAdd (rs : DiffResults) (kv : String × Yaml) : DiffResults :=
  let rs := ensureKey rs kv.1
  match kv.2 with
  | .list l => updateKey rs kv.1 (fun b => { b with added := b.added ++ l })
  | .dict d => firstExecAddUserDefined rs kv.1 ((Yaml.dict d).get? "user_defined")
  | _ => rs

/-- One `(change, details)` step of `process_diff` for a dictionary-shaped
change-type body.  The state carries the results so far and
`list_objects_changed_names` (paths of objects whose name changed, used to
suppress value changes on renamed objects). -/
def processDictChange (configlet_name : Option String) (previous_file current_file : Yaml)
    (change_type : String) (st : DiffResults × List DiffPath) (c : DiffPath × Yaml) :
    DiffResults × List DiffPath :=
  let results := st.1
  let renamed := st.2
  let change := c.1
  let details := c.2
  if change_type == "type_changes" && change == ([] : DiffPath) then
    match details.get? "new_value" with
    | some (.dict items) => (items.foldl firstExecAdd results, renamed)
    | _ => (results, renamed)
  else if change_type == "values_changed" && change == ([] : DiffPath) then
    match configlet_name with
    | some nm =>
      let results := ensureKey results "configlet_contents"
      let change_detail := Yaml.dict (pyDictUnion [("name", .str nm)] details.kvs)
      (updateKey results "configlet_contents"
        (fun b => { b with changed := b.changed ++ [change_detail] }), renamed)
    | none => (results, renamed)
  else
    let apstra_object := firstKeyOf change
    let results := ensureKey results apstra_object
    if change_type ∈ changed_types then
      let previous_object := extract_segments change 2
      if lastSegIsName change then
        let renamed := renamed ++ [previous_object]
        let previous_name := (details.get? "old_value").getD (.str "")
        let current_name := (details.get? "new_value").getD (.str "")
        let previous_entry := find_nested_dict_entry previous_file apstra_object "name" previous_name
        let current_entry := find_nested_dict_entry current_file apstra_object "name" current_name
        match previous_entry, current_entry with
        | some pe, some ce =>
          if pe.truthy && ce.truthy then
            (updateKey results apstra_object
              (fun b => { b with removed := b.removed ++ [pe], added := b.added ++ [ce] }),
             renamed)
          else (results, renamed)
        | _, _ => (results, renamed)
      else
        if previous_object ∈ renamed then (results, renamed)
        else
          let current_name :=
            (get_value_at_path previous_file (previous_object ++ [Seg.key "name"])).getD .null
          let change_detail := Yaml.dict (pyDictUnion [("name", current_name)] details.kvs)
          (updateKey results apstra_object
            (fun b => { b with changed := b.changed ++ [change_detail] }), renamed)
    else if change_type ∈ added_types then
      (updateKey results apstra_object
        (fun b => { b with added := b.added ++ [details] }), renamed)
    else
      (updateKey results apstra_object
        (fun b => { b with removed := b.removed ++ [details] }), renamed)

/-- One path of a `dictionary_item_added` / `dictionary_item_removed` body:
the source re-reads the corresponding file and evaluates the path in it;
list values are appended wholesale to `added` or `removed`. -/
def processPathChange (file : Yaml) (change_type : String) (rs : DiffResults)
    (change : DiffPath) : DiffResults :=
  let apstra_object := firstKeyOf change
  let details := get_value_at_path file change
  let rs := ensureKey rs apstra_object
  match details with
  | some (.list l) =>
    if change_type == "dictionary_item_added" then
      updateKey rs apstra_object (fun b => { b with added := b.added ++ l })
    else
      updateKey rs apstra_object (fun b => { b with removed := b.removed ++ l })
  | _ => rs

/-- `process_diff` (utils.py): categorise a DeepDiff result into
added/changed/removed buckets per object type.  `previous_file` and
`current_file` are the parsed contents of the two compared files;
`configlet_name` is set when diffing configlet template contents. -/
def process_diff (diff : DeepDiffOutput) (previous_file current_file : Yaml)
    (configlet_name : Option String) : DiffResults :=
  diff.foldl (fun results entry =>
    let change_type := entry.1
    if change_type ∈ added_types ++ changed_types ++ removed_types then
      match entry.2 with
      | .detailMap cs =>
        (cs.foldl (processDictChange configlet_name previous_file current_file change_type)
          (results, [])).1
      | .pathList ps =>
        if change_type == "dictionary_item_added" then
          ps.foldl (processPathChange current_file change_type) results
        else if change_type == "dictionary_item_removed" then
          ps.foldl (processPathChange previous_file change_type) results
        else results
    else results) []

/-- The objects a snapshot stores under one object-type key, as the
first-execution path of `process_diff` collects them: the elements of a
list-valued entry, and the `user_defined` list of a dictionary-valued
entry. -/
def menuObjects : Yaml → List Yaml
  | .list l => l
  | .dict d =>
    match (Yaml.dict d).get? "user_defined" with
    | some (.list ud) => ud
    | _ => []
  | _ => []

/-! ## Execution directory rotation: `manage_execution_dirs`, initial stage

The `wip` directory is modelled as an association list from the numeric
suffix of each `execution_<k>` directory to the contents of that directory.  For
claim C2 the only content that matters is the tgz snapshot of the input
tree written into `execution_0`; the contents type is abstract. -/

/-- The `execution_*` directories under the wip path: suffix number paired
with the directory contents (abstract). -/
abbrev ExecDirs (α : Type) := List (Nat × α)

/-- `remove_directory` on `execution_<k>`. -/
def removeExecDir {α : Type} (fs : ExecDirs α) (k : Nat) : ExecDirs α :=
  fs.filter (fun p => !(p.1 == k))

/-- `os.rename` of `execution_<k>` to `execution_<j>`. -/
def renameExecDir {α : Type} (fs : ExecDirs α) (k j : Nat) : ExecDirs α :=
  fs.map (fun p => if p.1 == k then (j, p.2) else p)

/-- One iteration of the rotation loop of `manage_execution_dirs`: the
directory numbered `k` is removed when its new number would exceed the
threshold, and renamed to `k + 1` otherwise. -/
def rotateStep {α : Type} (threshold : Nat) (fs : ExecDirs α) (k : Nat) : ExecDirs α :=
  if k + 1 > threshold then removeExecDir fs k else renameExecDir fs k (k + 1)

/-- The rotation loop of `manage_execution_dirs` (initial stage): the
existing execution numbers are sorted ascending and processed in reversed
order, renaming each `execution_<k>` to `execution_<k+1>` or deleting it
beyond the threshold. -/
def rotateExecutionDirs {α : Type} (threshold : Nat) (fs : ExecDirs α) : ExecDirs α :=
  ((List.insertionSort (· ≤ ·) (fs.map Prod.fst)).reverse).foldl (rotateStep threshold) fs

/-- `manage_execution_dirs(stage="initial_stage", threshold)` as it affects
the `execution_*` directories: rotate the existing directories, then
materialise a fresh `execution_0` holding the snapshot of the current
input tree. -/
def manage_execution_dirs_initial {α : Type} (threshold : Nat) (inputSnapshot : α)
    (fs : ExecDirs α) : ExecDirs α :=
  (0, inputSnapshot) :: rotateExecutionDirs threshold fs

/-- Presence and contents of `execution_<k>` under the wip path. -/
def lookupExec {α : Type} (fs : ExecDirs α) (k : Nat) : Option α :=
  (fs.find? (fun p => p.1 == k)).map Prod.snd

/-! ## Time Voyager revisions: the quota logic of `deploy_bp`

The remote revision list of a blueprint is modelled as the list the AOS
API returns from `get_bp_revision_list`; `remove_revision` and
`keep_revision` are modelled as the server honouring the delete/keep
requests the orchestrator issues. -/

/-- A Time Voyager revision entry. -/
structure Revision where
  revision_id : String
  created_at : Option String
  user_saved : Bool
deriving DecidableEq, Repr

/-- `max_permanent_revisions` (utils.py). -/
def max_permanent_revisions : Nat := 25

/-- The sort key of `get_oldest_revision`:
`r.get("created_at", "9999-12-31T23:59:59Z")`. -/
def revisionSortKey (r : Revision) : String :=
  r.created_at.getD "9999-12-31T23:59:59Z"

/-- Python string comparison `a < b`: lexicographic on the code points.
(`String.instLT` agrees but does not reduce in the kernel, so the order is
spelled out on the character lists.) -/
def charListLt : List Char → List Char → Bool
  | [], [] => false
  | [], _ :: _ => true
  | _ :: _, [] => false
  | a :: as, b :: bs => if a < b then true else if b < a then false else charListLt as bs

/-- Python `a < b` on strings. -/
def pyStrLt (a b : String) : Bool := charListLt a.data b.data

/-- Python `min(xs, key=k)`: the first element with minimal key
(`none` on the empty list, where the source raises). -/
def pyMinBy (k : Revision → String) : List Revision → Option Revision
  | [] => none
  | x :: xs => some (xs.foldl (fun best r => if pyStrLt (k r) (k best) then r else best) x)

/-- `get_permanent_revisions` (utils.py): the revisions with
`user_saved` true. -/
def get_permanent_revisions (revs : List Revision) : List Revision :=
  revs.filter (fun r => r.user_saved)

/-- `get_oldest_revision` (utils.py): the revision with the earliest
`created_at` among ALL revisions of the blueprint. -/
def get_oldest_revision (revs : List Revision) : Option Revision :=
  if revs.isEmpty then none else pyMinBy revisionSortKey revs

/-- `remove_revision` as it affects the remote list: the revision with the
given id is deleted. -/
def remove_revision (revs : List Revision) (revision_id : String) : List Revision :=
  revs.filter (fun r => !(r.revision_id == revision_id))

/-- `keep_revision` as it affects the remote list: the revision with the
given id is marked permanently saved. -/
def keep_revision (revs : List Revision) (revision_id : String) : List Revision :=
  revs.map (fun r => if r.revision_id == revision_id then { r with user_saved := true } else r)

/-- The post-commit revision management step of `deploy_bp`
(utils.py, the quota check after a completed commit): when the permanent
revisions already fill the quota, the oldest revision returned by
`get_oldest_revision` is removed, then the new revision is kept
permanently.  `newRevisionId` is the id `deploy_bp` passes to
`keep_revision`. -/
def deploy_bp_quota_step (revs : List Revision) (newRevisionId : String) : List Revision :=
  let permanent := get_permanent_revisions revs
  let revs2 :=
    if max_permanent_revisions ≤ permanent.length then
      match get_oldest_revision revs with
      | some oldest => remove_revision revs oldest.revision_id
      | none => revs
    else revs
  keep_revision revs2 newRevisionId

/-! ## The retry/poll protocol of `deploy_bp`, `revert_bp`, `delete_bp`

The remote side is a stream of HTTP status codes, indexed by the order in
which the client issues requests: `resp i` is the status of the i-th
request.  Each protocol is the exact control flow of the source, with the
request counter made explicit and loops expressed by fuel recursion
(`max_retries = 3`, `max_poll_attempts = 10`). -/

/-- Outcome of `deploy_bp`: `success` is the path where
`commit_completed` is true and the post-commit work runs; `failure` is the
path where an exception was raised and caught (an error is logged and the
post-commit work is skipped). -/
inductive DeployResult where
  | success
  | failure
deriving DecidableEq, Repr

/-- The poll loop of `deploy_bp`: 202 completes, 409 keeps polling, a 4xx
or 5xx raises (`false`), any other status falls through and the loop
continues; exhausting the attempts leaves `commit_completed` false. -/
def deployPollLoop (resp : Nat → Nat) (i : Nat) : Nat → Bool
  | 0 => false
  | fuel + 1 =>
    let st := resp i
    if st == 202 then true
    else if st == 409 then deployPollLoop resp (i + 1) fuel
    else if 400 ≤ st then false
    else deployPollLoop resp (i + 1) fuel

/-- The initial-request retry loop of `deploy_bp`: 202 enters the poll
loop (a non-completed poll raises, i.e. fails), 409 retries, a 4xx or 5xx
raises; any other status falls through `raise_for_status` and the loop
continues; exhausting all retries raises. -/
def deployAttemptLoop (resp : Nat → Nat) (i : Nat) : Nat → DeployResult
  | 0 => .failure
  | fuel + 1 =>
    let st := resp i
    if st == 202 then
      if deployPollLoop resp (i + 1) 10 then .success else .failure
    else if st == 409 then deployAttemptLoop resp (i + 1) fuel
    else if 400 ≤ st then .failure
    else deployAttemptLoop resp (i + 1) fuel

/-- The retry/poll protocol of `deploy_bp` (utils.py). -/
def deploy_bp_protocol (resp : Nat → Nat) : DeployResult :=
  deployAttemptLoop resp 0 3

/-- The poll loop of `revert_bp`: returns the HTTP status it reports
(202 success, 408 on polling exhaustion, any other status verbatim). -/
def revertPollLoop (resp : Nat → Nat) (i : Nat) : Nat → Nat
  | 0 => 408
  | fuel + 1 =>
    let st := resp i
    if st == 202 then 202
    else if st == 409 then revertPollLoop resp (i + 1) fuel
    else st

/-- The initial-request retry loop of `revert_bp`: 202 enters the poll
loop, 409 retries (409 returned when all retries are exhausted).  For any
other initial status the source dereferences the unbound `poll_response`
variable, raising a `NameError` that its broad handler converts into the
return value 500. -/
def revertAttemptLoop (resp : Nat → Nat) (i : Nat) : Nat → Nat
  | 0 => 409
  | fuel + 1 =>
    let st := resp i
    if st == 202 then revertPollLoop resp (i + 1) 10
    else if st == 409 then revertAttemptLoop resp (i + 1) fuel
    else 500

/-- The retry/poll protocol of `revert_bp` (utils.py): the returned HTTP
status code, 202 meaning success. -/
def revert_bp_protocol (resp : Nat → Nat) : Nat :=
  revertAttemptLoop resp 0 3

/-- The poll loop of `delete_bp`: 404 means the blueprint is gone
(`some true`), 409/405 keep polling, a 4xx or 5xx raises (`none`), any
other status falls through and the loop continues; exhaustion raises. -/
def deletePollLoop (resp : Nat → Nat) (i : Nat) : Nat → Option Bool
  | 0 => none
  | fuel + 1 =>
    let st := resp i
    if st == 404 then some true
    else if st == 409 || st == 405 then deletePollLoop resp (i + 1) fuel
    else if 400 ≤ st then none
    else deletePollLoop resp (i + 1) fuel

/-- The initial-request retry loop of `delete_bp`: 202 enters the poll
loop, 409/405 retry, a 4xx or 5xx raises; any other status falls through
and the loop continues; exhaustion raises.  Raised exceptions are caught
by the function, which then returns Python `None` (`none`). -/
def deleteAttemptLoop (resp : Nat → Nat) (i : Nat) : Nat → Option Bool
  | 0 => none
  | fuel + 1 =>
    let st := resp i
    if st == 202 then deletePollLoop resp (i + 1) 10
    else if st == 409 || st == 405 then deleteAttemptLoop resp (i + 1) fuel
    else if 400 ≤ st then none
    else deleteAttemptLoop resp (i + 1) fuel

/-- The retry/poll protocol of `delete_bp` (utils.py): `some true` on
confirmed removal, `none` when an exception was caught. -/
def delete_bp_protocol (resp : Nat → Nat) : Option Bool :=
  deleteAttemptLoop resp 0 3

/-- A poll status that is non-terminal for the `deploy_bp` poll loop: it
neither completes the commit (202) nor raises (it is 409, or not an error
status at all). -/
def deployPollNonTerminal (st : Nat) : Prop := st ≠ 202 ∧ (st = 409 ∨ st < 400)

/-- A poll status that is non-terminal for the `revert_bp` poll loop:
only 409 keeps that loop polling. -/
def revertPollNonTerminal (st : Nat) : Prop := st = 409

/-- A poll status that is non-terminal for the `delete_bp` poll loop: it
neither confirms removal (404) nor raises (4xx/5xx). -/
def deletePollNonTerminal (st : Nat) : Prop :=
  st ≠ 404 ∧ (st = 409 ∨ st = 405 ∨ st < 400)

/-! ## The blueprint phase of the revert algorithm

`revert_execution` scans the configured blueprints for uncommitted
changes (`scan_blueprints`) and, for each one, issues a remote revert when
the blueprint has Time Voyager revisions and a remote delete when it has
none.  The remote calls are recorded as a trace. -/

/-- The per-blueprint data `scan_blueprints` consumes
(`get_blueprint_data` output). -/
structure BlueprintData where
  label : String
  has_uncommitted_changes : Bool
  version : Nat
deriving DecidableEq, Repr

/-- `scan_blueprints` (utils.py), restricted to the `uncommitted_bps`
list it builds: each configured blueprint whose data reports uncommitted
changes, with its staged version. -/
def scan_uncommitted (blueprints : List String) (raw : List BlueprintData) :
    List (String × Nat) :=
  blueprints.foldl (fun acc bp_name =>
    match raw.find? (fun bp => bp.label == bp_name) with
    | some bp_data =>
      if bp_data.has_uncommitted_changes then acc ++ [(bp_name, bp_data.version)] else acc
    | none => acc) []

/-- A remote blueprint-level call issued during the revert algorithm. -/
inductive BpApiCall where
  | revertCall (bp : String)
  | deleteCall (bp : String)
deriving DecidableEq, Repr

/-- The loop of `revert_execution` over `uncommitted_bps`: revisions
available in the Time Voyager lead to `revert_bp`, an empty revision list
leads to `delete_bps`. -/
def revertUncommittedBlueprints (revisions : String → List Revision)
    (uncommitted : List (String × Nat)) : List BpApiCall :=
  uncommitted.foldl (fun calls bp =>
    if 0 < (revisions bp.1).length then calls ++ [.revertCall bp.1]
    else calls ++ [.deleteCall bp.1]) []

/-- The blueprint phase of `revert_execution` (utils.py): the remote
blueprint calls it issues.  The phase only runs on the automatic
revert-to-last-execution path (the only one exercised: every caller passes
`revert_to_last_exec = True`). -/
def revert_execution_blueprint_phase (revert_to_last_exec : Bool)
    (blueprints : List String) (raw : List BlueprintData)
    (revisions : String → List Revision) : List BpApiCall :=
  if revert_to_last_exec then
    revertUncommittedBlueprints revisions (scan_uncommitted blueprints raw)
  else []

/-! ## Rollback cleanup of added non-declarative objects:
`remove_non_bp_added` -/

/-- A typed delete call issued against the remote system during
`remove_non_bp_added`; the argument is the object name resolved to an id
at call time. -/
inductive ObjDeleteCall where
  | interfaceMapDelete (name : Yaml)
  | templateDelete (name : Yaml)
  | rackTypeDelete (name : Yaml)
  | logicalDeviceDelete (name : Yaml)
  | configletDelete (name : Yaml)
  | propertySetDelete (name : Yaml)
  | ipv4PoolDelete (name : Yaml)
  | ipv6PoolDelete (name : Yaml)
  | vniPoolDelete (name : Yaml)
  | asnPoolDelete (name : Yaml)
deriving DecidableEq, Repr

/-- Whether a delete call targets an interface map. -/
def ObjDeleteCall.isInterfaceMapDelete : ObjDeleteCall → Bool
  | .interfaceMapDelete _ => true
  | _ => false

/-- Whether a delete call targets a logical device. -/
def ObjDeleteCall.isLogicalDeviceDelete : ObjDeleteCall → Bool
  | .logicalDeviceDelete _ => true
  | _ => false

/-- The diff consumed by `remove_non_bp_added`: per menu, the structured
results of `process_diff`. -/
abbrev MenuDiff := List (String × DiffResults)

/-- The first pass of `remove_non_bp_added`: collect the names of all
added interface maps (menu `design`, object `interface_maps`) so that they
can be deleted before anything else. -/
def interface_maps_to_remove (input_diff : MenuDiff) : List Yaml :=
  input_diff.flatMap (fun md =>
    md.2.flatMap (fun ob =>
      ob.2.added.filterMap (fun added =>
        let added_name := (added.get? "name").getD .null
        if added_name.truthy && md.1 == "design" && ob.1 == "interface_maps" then
          some added_name
        else none)))

/-- The delete call the second pass of `remove_non_bp_added` issues for
one added object of the given menu and object type (interface maps have no
branch there: they were already handled by the first pass). -/
def deleteCallForAdded (menu apstra_object : String) (added_name : Yaml) :
    List ObjDeleteCall :=
  if menu == "design" then
    if apstra_object == "templates" then [.templateDelete added_name]
    else if apstra_object == "racks" then [.rackTypeDelete added_name]
    else if apstra_object == "logical_devices" then [.logicalDeviceDelete added_name]
    else if apstra_object == "configlets" then [.configletDelete added_name]
    else if apstra_object == "property_sets" then [.propertySetDelete added_name]
    else []
  else if menu == "resources" then
    if apstra_object == "ipv4_pools" then [.ipv4PoolDelete added_name]
    else if apstra_object == "ipv6_pools" then [.ipv6PoolDelete added_name]
    else if apstra_object == "vni_pools" then [.vniPoolDelete added_name]
    else if apstra_object == "asn_pools" then [.asnPoolDelete added_name]
    else []
  else []

/-- The second pass of `remove_non_bp_added`: delete the remaining added
objects; for `configlet_contents` entries whose contents changed, delete
the configlets by name. -/
def secondPassDeleteCalls (input_diff : MenuDiff) : List ObjDeleteCall :=
  input_diff.flatMap (fun md =>
    md.2.flatMap (fun ob =>
      if !ob.2.added.isEmpty then
        ob.2.added.flatMap (fun added =>
          let added_name := (added.get? "name").getD .null
          if added_name.truthy then deleteCallForAdded md.1 ob.1 added_name else [])
      else if !ob.2.changed.isEmpty && ob.1 == "configlet_contents" then
        (ob.2.changed.filterMap (fun d => d.get? "name")).map
          (fun nm => ObjDeleteCall.configletDelete nm)
      else []))

/-- `remove_non_bp_added` (utils.py) as the trace of remote delete calls
it issues, in order: all added interface maps first, then everything
else. -/
def remove_non_bp_added (input_diff : MenuDiff) : List ObjDeleteCall :=
  (interface_maps_to_remove input_diff).map (fun nm => ObjDeleteCall.interfaceMapDelete nm)
    ++ secondPassDeleteCalls input_diff

/-! ## Rollback candidates: `get_project_rollback_history` -/

/-- One record of the execution history, as loaded from an
`execution_data.yml` (only the fields the rollback filter reads). -/
structure ExecRecord where
  execution_id : Option String
  exit_code : Option String
deriving DecidableEq, Repr

/-- `list_successful_exit_codes` (utils.py). -/
def list_successful_exit_codes : List String :=
  ["USER_TF_EXEC_COMMIT", "USER_TF_EXEC_DESTROY"]

/-- The filter of `get_project_rollback_history`: the exit code is in the
successful set and the execution id differs from the current one. -/
def isRollbackCandidate (current_execution_id : String) (e : ExecRecord) : Bool :=
  (match e.exit_code with
   | some c => list_successful_exit_codes.contains c
   | none => false)
  && e.execution_id != some current_execution_id

/-- The sort key of `get_project_rollback_history`:
`execution.get("execution_id", "")`. -/
def execSortKey (e : ExecRecord) : String :=
  e.execution_id.getD ""

/-- `sorted(..., key=..., reverse=True)`: the stable descending sort by
execution id. -/
def sortExecDescending (l : List ExecRecord) : List ExecRecord :=
  List.insertionSort (fun a b => execSortKey b ≤ execSortKey a) l

/-- `get_project_rollback_history` (utils.py): filter the project
execution history to successful executions other than the current one and
sort by execution id descending. -/
def get_project_rollback_history (history : List ExecRecord)
    (current_execution_id : String) : List ExecRecord :=
  sortExecDescending (history.filter (isRollbackCandidate current_execution_id))

/-! ## The terminal handler: `exit_manager` and `commit_wip_executions`

The filesystem state is reduced to what claims C9 and C10 read: the
persisted `executions` directory as its list of top-level entries — the
`execution_*` directories and, when present, the `__blocked__` sentinel
directory, which `blocked_executions_path` places inside `executions_dir`;
only the `__wip__` staging subdirectory (also inside `executions_dir`) is
modelled separately — plus the execution metadata record, the archive
produced by the destroy path, and whether a follow-up rollback execution
was launched. -/

/-- Contents of a directory tree, as an abstract list of entries. -/
abbrev DirTree := List String

/-- The orchestrator-visible world state when `exit_manager` runs. -/
structure WorldState where
  /-- Entries of the persisted `executions` directory (without the
  `__wip__` staging subdirectory, modelled in `wip`; the `__blocked__`
  sentinel directory, when it exists, is one of these entries). -/
  persistedExecutions : DirTree
  /-- The `__wip__` staging tree, when present. -/
  wip : Option DirTree
  /-- Whether the `execution_data.yml` of the current execution exists. -/
  executionDataFileExists : Bool
  /-- The fields of `execution_data.yml`. -/
  executionData : List (String × String)
  /-- Archives produced by the destroy final stage. -/
  archived : List DirTree
  /-- Whether a follow-up rollback execution was launched. -/
  relaunched : Bool
  /-- The `first_execution_reverted` scope flag. -/
  firstExecutionReverted : Bool
  /-- The `post_rollback` scope flag. -/
  postRollback : Bool
deriving DecidableEq, Repr

/-- How the Python function terminates the process. -/
inductive ProcessTermination where
  | exited (status : Nat)
  | returned
deriving DecidableEq, Repr

/-- Python `str.upper()`, applied by `exit_manager` to the exit code. -/
def pyUpper (s : String) : String := ⟨s.data.map Char.toUpper⟩

/-- `handle_execution_data_file` with action `update` on one field:
read-modify-write of the YAML record. -/
def updateExecData (data : List (String × String)) (k v : String) :
    List (String × String) :=
  if data.any (fun p => p.1 == k) then
    data.map (fun p => if p.1 == k then (k, v) else p)
  else data ++ [(k, v)]

/-- The keys of the `exit_messages` table of `exit_manager`: the
recognized exit codes. -/
def exit_messages_codes : List String :=
  ["USER_SILENT_EXIT", "USER_REVERT", "TF_PLAN_W_ERRORS", "TF_PLAN_NO_CHANGES",
   "TF_PLAN_NO_CHANGES_POST_ROLLBACK", "USER_TF_EXEC_ABORTED", "TF_EXEC_NOT_APPLY_DESTROY",
   "TF_EXEC_W_ERRORS_REVERT", "TF_EXEC_W_ERRORS_DESTROY", "USER_TF_EXEC_COMMIT",
   "USER_TF_EXEC_DESTROY", "BLOCKED_EXECUTIONS"]

/-- The `successful_execution` set of `exit_manager`: the codes that
commit the wip tree into the persisted executions directory. -/
def commit_exit_codes : List String :=
  ["USER_TF_EXEC_COMMIT", "USER_TF_EXEC_DESTROY", "TF_PLAN_NO_CHANGES_POST_ROLLBACK"]

/-- `commit_wip_executions` (utils.py) as it affects the persisted
`executions` directory: the target is cleaned (the wip staging tree,
living inside it, is first moved out of harms way and back) and the wip
contents are copied in, so the persisted entries afterwards are exactly
the wip entries. -/
def commit_wip_executions (s : WorldState) : WorldState :=
  { s with persistedExecutions := s.wip.getD [] }

/-- `exit_manager` for `BLOCKED_EXECUTIONS`:
`os.makedirs(self.blocked_executions_path, exist_ok=True)` creates the
`__blocked__` sentinel directory INSIDE the persisted executions
directory (`blocked_executions_path = executions_dir/__blocked__`), so
the entry is added to `persistedExecutions` when absent; the log file the
source then copies into the sentinel lies below the entry granularity of
`DirTree`. -/
def cleanupBlocked (code : String) (s : WorldState) : WorldState :=
  if code == "BLOCKED_EXECUTIONS" then
    { s with persistedExecutions :=
        if "__blocked__" ∈ s.persistedExecutions then s.persistedExecutions
        else s.persistedExecutions ++ ["__blocked__"] }
  else s

/-- `exit_manager` for the successful codes: commit the wip tree into the
persisted executions directory. -/
def cleanupCommit (code : String) (s : WorldState) : WorldState :=
  if code ∈ commit_exit_codes then commit_wip_executions s else s

/-- `remove_directory(self.get("wip_path"))` in `exit_manager`. -/
def cleanupRemoveWip (s : WorldState) : WorldState :=
  { s with wip := none }

/-- `manage_execution_dirs("destroy_final_stage")` in `exit_manager`: the
executions tree is archived and then deleted. -/
def cleanupDestroy (code : String) (s : WorldState) : WorldState :=
  if code == "USER_TF_EXEC_DESTROY" then
    { s with archived := s.archived ++ [s.persistedExecutions],
             persistedExecutions := [] }
  else s

/-- The tail of `exit_manager`: for the revert codes (unless the first
execution was reverted) a brand-new execution is launched to complete the
rollback; otherwise the post-rollback flag is reset. -/
def cleanupRelaunch (code : String) (s : WorldState) : WorldState :=
  if !s.firstExecutionReverted
      && (code == "USER_REVERT" || code == "TF_EXEC_W_ERRORS_REVERT") then
    { s with relaunched := true }
  else { s with postRollback := false }

/-- The cleanup block of `exit_manager` for a recognized exit code, in the
order the source performs the steps. -/
def exit_manager_cleanup (code : String) (s : WorldState) : WorldState :=
  cleanupRelaunch code (cleanupDestroy code (cleanupRemoveWip (cleanupCommit code (cleanupBlocked code s))))

/-- `exit_manager` (utils.py): update the persisted exit code, perform the
per-exit-code cleanup, and terminate the process with `sys.exit(0)`.  A
missing exit code (`None`, the default) or an empty string skips the whole
body and the function merely returns. -/
def exit_manager (exit_code : Option String) (s : WorldState) :
    WorldState × ProcessTermination :=
  match exit_code with
  | none => (s, .returned)
  | some code0 =>
    if code0 == "" then (s, .returned)
    else
      let code := pyUpper code0
      let s :=
        if s.executionDataFileExists then
          { s with executionData := updateExecData s.executionData "exit_code" code }
        else s
      if code ∈ exit_messages_codes then
        (exit_manager_cleanup code s, .exited 0)
      else (s, .exited 0)

/-! ## Helper lemmas -/

lemma find_map_update (k v : String) (d : List (String × String))
    (h : d.any (fun p => p.1 == k) = true) :
    (d.map (fun p => if p.1 == k then (k, v) else p)).find? (fun p => p.1 == k) = some (k, v) := by
  induction d with
  | nil => simp at h
  | cons x xs ih =>
    by_cases hx : (x.1 == k) = true
    · have hfx : (if x.1 == k then (k, v) else x) = (k, v) := by simp [hx]
      rw [List.map_cons, hfx, List.find?_cons_of_pos]
      simp
    · simp only [List.any_cons, hx, Bool.false_or] at h
      have hfx : (if x.1 == k then (k, v) else x) = x := by simp [hx]
      rw [List.map_cons, hfx, List.find?_cons_of_neg]
      · exact ih h
      · simpa using hx

lemma find_append_new (k v : String) (d : List (String × String))
    (h : d.any (fun p => p.1 == k) = false) :
    (d ++ [(k, v)]).find? (fun p => p.1 == k) = some (k, v) := by
  induction d with
  | nil => simp
  | cons x xs ih =>
    simp only [List.any_cons, Bool.or_eq_false_iff] at h
    rw [List.cons_append, List.find?_cons_of_neg]
    · exact ih h.2
    · simp [h.1]

lemma find_updateExecData (k v : String) (d : List (String × String)) :
    (updateExecData d k v).find? (fun p => p.1 == k) = some (k, v) := by
  unfold updateExecData
  by_cases h : d.any (fun p => p.1 == k) = true
  · simp only [h, if_true]
    exact find_map_update k v d h
  · simp only [Bool.not_eq_true] at h
    simp only [h, Bool.false_eq_true, if_false]
    exact find_append_new k v d h

lemma cleanup_executionData (code : String) (s : WorldState) :
    (exit_manager_cleanup code s).executionData = s.executionData := by
  unfold exit_manager_cleanup cleanupRelaunch cleanupDestroy cleanupRemoveWip cleanupCommit
    cleanupBlocked commit_wip_executions
  repeat' split
  all_goals rfl

lemma cleanup_frame (code : String) (s : WorldState)
    (h : code ∉ commit_exit_codes) (hb : code ≠ "BLOCKED_EXECUTIONS") :
    (exit_manager_cleanup code s).persistedExecutions = s.persistedExecutions ∧
    (exit_manager_cleanup code s).wip = none := by
  have hd : (code == "USER_TF_EXEC_DESTROY") = false := by
    have hne : code ≠ "USER_TF_EXEC_DESTROY" := by
      intro he; exact h (by rw [he]; decide)
    simpa using hne
  have hbb : (code == "BLOCKED_EXECUTIONS") = false := by simpa using hb
  unfold exit_manager_cleanup cleanupRelaunch cleanupDestroy cleanupRemoveWip cleanupCommit
    cleanupBlocked
  simp only [h, if_false, hd, hbb, Bool.false_eq_true]
  repeat' split
  all_goals exact ⟨rfl, rfl⟩

/-! ## Claim C9 -/

/-- C9: for every terminal outcome, i.e. every non-empty exit code handed
to `exit_manager`, recognized or not, the process terminates with exit
status 0; the outcome itself is recorded in the persisted `exit_code`
field of the execution metadata (when the metadata file exists), never in
the process exit status. -/
theorem c9_process_exit_status_zero (code : String) (s : WorldState) (h : code ≠ "") :
    (exit_manager (some code) s).2 = ProcessTermination.exited 0 ∧
    (s.executionDataFileExists = true →
      ((exit_manager (some code) s).1.executionData.find? (fun p => p.1 == "exit_code")).map
          Prod.snd = some (pyUpper code)) := by
  have hb : (code == "") = false := by simpa using h
  unfold exit_manager
  simp only [hb, Bool.false_eq_true, if_false]
  constructor
  · split <;> rfl
  · intro hf
    simp only [hf, if_true]
    split
    · simp [cleanup_executionData, find_updateExecData]
    · simp [find_updateExecData]

/-- Witness for C9: a concrete unrecognized exit code still terminates the
process with status 0. -/
theorem c9_process_exit_status_zero_witness :
    "SOME_UNRECOGNIZED_CODE" ≠ "" ∧
    (exit_manager (some "SOME_UNRECOGNIZED_CODE")
        ⟨["execution_1"], some ["execution_0"], true, [], [], false, false, false⟩).2 =
      ProcessTermination.exited 0 := by
  refine ⟨by decide, ?_⟩
  exact (c9_process_exit_status_zero "SOME_UNRECOGNIZED_CODE" _ (by decide)).1

/-! ## Claim C10 -/

/-- Counterexample to C10 as stated: `BLOCKED_EXECUTIONS` is a recognized
exit code outside the three commit codes, yet `exit_manager` changes the
contents of the persisted executions directory for it: it creates the
`__blocked__` sentinel directory inside `executions_dir`
(`blocked_executions_path = executions_dir/__blocked__`) and copies the
execution log into it. -/
theorem c10_commit_frame_effect_counterexample :
    pyUpper "BLOCKED_EXECUTIONS" ∈ exit_messages_codes ∧
    pyUpper "BLOCKED_EXECUTIONS" ∉ commit_exit_codes ∧
    (exit_manager (some "BLOCKED_EXECUTIONS")
        ⟨["execution_1"], some ["execution_0"], true, [], [], false, false,
          false⟩).1.persistedExecutions ≠ ["execution_1"] := by
  decide

/-- C10 (amended): the persisted executions directory is replaced by the
wip tree only when the exit code is one of `USER_TF_EXEC_COMMIT`,
`USER_TF_EXEC_DESTROY` or `TF_PLAN_NO_CHANGES_POST_ROLLBACK`; for every
other recognized exit code EXCEPT `BLOCKED_EXECUTIONS` the contents of the
persisted executions directory are left unchanged by `exit_manager` and
the wip tree is discarded instead of being committed
(`BLOCKED_EXECUTIONS` additionally creates the `__blocked__` sentinel
directory inside the executions directory). -/
theorem c10_commit_frame_effect_amended (code : String) (s : WorldState)
    (h1 : pyUpper code ∈ exit_messages_codes) (h2 : pyUpper code ∉ commit_exit_codes)
    (h3 : pyUpper code ≠ "BLOCKED_EXECUTIONS") :
    (exit_manager (some code) s).1.persistedExecutions = s.persistedExecutions ∧
    (exit_manager (some code) s).1.wip = none := by
  have hne : (code == "") = false := by
    by_contra hcc
    have hce : code = "" := by simpa using hcc
    rw [hce] at h1
    exact absurd h1 (by decide)
  have key : ∀ t : WorldState, t.persistedExecutions = s.persistedExecutions →
      (exit_manager_cleanup (pyUpper code) t).persistedExecutions = s.persistedExecutions ∧
      (exit_manager_cleanup (pyUpper code) t).wip = none := by
    intro t ht
    have hcf := cleanup_frame (pyUpper code) t h2 h3
    exact ⟨hcf.1.trans ht, hcf.2⟩
  unfold exit_manager
  simp only [hne, Bool.false_eq_true, if_false, h1, if_true]
  split
  · exact key _ rfl
  · exact key _ rfl

/-- Witness for the amended C10: `USER_SILENT_EXIT` leaves a concrete
persisted executions tree untouched. -/
theorem c10_commit_frame_effect_amended_witness :
    pyUpper "USER_SILENT_EXIT" ∈ exit_messages_codes ∧
    pyUpper "USER_SILENT_EXIT" ∉ commit_exit_codes ∧
    pyUpper "USER_SILENT_EXIT" ≠ "BLOCKED_EXECUTIONS" ∧
    (exit_manager (some "USER_SILENT_EXIT")
        ⟨["execution_1"], some ["execution_0"], true, [], [], false, false,
          false⟩).1.persistedExecutions = ["execution_1"] := by
  refine ⟨by decide, by decide, by decide, ?_⟩
  exact (c10_commit_frame_effect_amended "USER_SILENT_EXIT"
    ⟨["execution_1"], some ["execution_0"], true, [], [], false, false, false⟩
    (by decide) (by decide) (by decide)).1

/-! ## Claim C8 -/

lemma isRollbackCandidate_iff (current : String) (e : ExecRecord) :
    isRollbackCandidate current e = true ↔
      ((∃ c, e.exit_code = some c ∧ c ∈ list_successful_exit_codes) ∧
       e.execution_id ≠ some current) := by
  unfold isRollbackCandidate
  cases hec : e.exit_code with
  | none => simp
  | some c => simp [List.elem_iff, bne_iff_ne]

lemma sortExec_sorted (l : List ExecRecord) :
    (sortExecDescending l).Sorted (fun a b => execSortKey b ≤ execSortKey a) := by
  haveI ht : IsTotal ExecRecord (fun a b => execSortKey b ≤ execSortKey a) :=
    ⟨fun a b => le_total (execSortKey b) (execSortKey a)⟩
  haveI htr : IsTrans ExecRecord (fun a b => execSortKey b ≤ execSortKey a) :=
    ⟨fun _ _ _ h1 h2 => le_trans h2 h1⟩
  exact List.sorted_insertionSort _ l

lemma sortExec_perm (l : List ExecRecord) : List.Perm (sortExecDescending l) l :=
  List.perm_insertionSort _ l

/-- C8: the rollback-candidate list is exactly the execution history
records whose exit code is in the successful-terminal set, with the
current execution id excluded, sorted by execution id in descending
order; no record with a non-successful exit code or with the current
execution id ever appears in it. -/
theorem c8_rollback_candidates (history : List ExecRecord) (current : String) :
    (∀ e, e ∈ get_project_rollback_history history current ↔
      (e ∈ history ∧
       (∃ c, e.exit_code = some c ∧ c ∈ list_successful_exit_codes) ∧
       e.execution_id ≠ some current)) ∧
    (get_project_rollback_history history current).Sorted
      (fun a b => execSortKey b ≤ execSortKey a) := by
  constructor
  · intro e
    unfold get_project_rollback_history
    rw [(sortExec_perm _).mem_iff, List.mem_filter]
    rw [isRollbackCandidate_iff]
  · exact sortExec_sorted _

/-! ## Claim C4 -/

lemma deployPollLoop_exhaust (resp : Nat → Nat) (fuel : Nat) : ∀ i : Nat,
    (∀ k, i ≤ k → k < i + fuel → deployPollNonTerminal (resp k)) →
    deployPollLoop resp i fuel = false := by
  induction fuel with
  | zero => intro i _; rfl
  | succ n ih =>
    intro i h
    obtain ⟨h202, hnt⟩ := h i (le_refl i) (by omega)
    have e202 : (resp i == 202) = false := by simpa using h202
    unfold deployPollLoop
    simp only [e202, Bool.false_eq_true, if_false]
    by_cases h409 : (resp i == 409) = true
    · simp only [h409, if_true]
      exact ih (i + 1) (fun k hk1 hk2 => h k (by omega) (by omega))
    · simp only [h409, Bool.false_eq_true, if_false]
      have hlt : resp i < 400 := by
        rcases hnt with h | h
        · exact absurd (by simpa using h) h409
        · exact h
      have h400 : ¬ (400 ≤ resp i) := by omega
      simp only [h400, if_false]
      exact ih (i + 1) (fun k hk1 hk2 => h k (by omega) (by omega))

lemma revertPollLoop_exhaust (resp : Nat → Nat) (fuel : Nat) : ∀ i : Nat,
    (∀ k, i ≤ k → k < i + fuel → revertPollNonTerminal (resp k)) →
    revertPollLoop resp i fuel = 408 := by
  induction fuel with
  | zero => intro i _; rfl
  | succ n ih =>
    intro i h
    have h409 : resp i = 409 := h i (le_refl i) (by omega)
    unfold revertPollLoop
    simp only [h409]
    exact ih (i + 1) (fun k hk1 hk2 => h k (by omega) (by omega))

lemma deletePollLoop_exhaust (resp : Nat → Nat) (fuel : Nat) : ∀ i : Nat,
    (∀ k, i ≤ k → k < i + fuel → deletePollNonTerminal (resp k)) →
    deletePollLoop resp i fuel = none := by
  induction fuel with
  | zero => intro i _; rfl
  | succ n ih =>
    intro i h
    obtain ⟨h404, hnt⟩ := h i (le_refl i) (by omega)
    have e404 : (resp i == 404) = false := by simpa using h404
    unfold deletePollLoop
    simp only [e404, Bool.false_eq_true, if_false]
    by_cases hcont : (resp i == 409 || resp i == 405) = true
    · simp only [hcont, if_true]
      exact ih (i + 1) (fun k hk1 hk2 => h k (by omega) (by omega))
    · simp only [hcont, Bool.false_eq_true, if_false]
      have hlt : resp i < 400 := by
        simp only [Bool.or_eq_true, beq_iff_eq] at hcont
        rcases hnt with h | h | h
        · exact absurd (Or.inl h) hcont
        · exact absurd (Or.inr h) hcont
        · exact h
      have h400 : ¬ (400 ≤ resp i) := by omega
      simp only [h400, if_false]
      exact ih (i + 1) (fun k hk1 hk2 => h k (by omega) (by omega))

/-- C4: for each of the asynchronous remote operations (blueprint
deploy/commit, revert, delete), if the poll loop after an accepted initial
request (HTTP 202) exhausts its attempt budget of 10 without observing a
terminal status, the operation is reported as failed: `deploy_bp` raises
and logs a failure, `revert_bp` returns the error status 408, `delete_bp`
raises and returns `None`; none of them reports success. -/
theorem c4_poll_exhaustion_never_success (r1 r2 r3 : Nat → Nat)
    (h1a : r1 0 = 202) (h1p : ∀ k, 1 ≤ k → k ≤ 10 → deployPollNonTerminal (r1 k))
    (h2a : r2 0 = 202) (h2p : ∀ k, 1 ≤ k → k ≤ 10 → revertPollNonTerminal (r2 k))
    (h3a : r3 0 = 202) (h3p : ∀ k, 1 ≤ k → k ≤ 10 → deletePollNonTerminal (r3 k)) :
    deploy_bp_protocol r1 = DeployResult.failure ∧
    revert_bp_protocol r2 = 408 ∧
    delete_bp_protocol r3 = none := by
  refine ⟨?_, ?_, ?_⟩
  · unfold deploy_bp_protocol deployAttemptLoop
    simp only [h1a]
    rw [deployPollLoop_exhaust r1 10 1 (fun k hk1 hk2 => h1p k hk1 (by omega))]
    rfl
  · unfold revert_bp_protocol revertAttemptLoop
    simp only [h2a]
    exact revertPollLoop_exhaust r2 10 1 (fun k hk1 hk2 => h2p k hk1 (by omega))
  · unfold delete_bp_protocol deleteAttemptLoop
    simp only [h3a]
    exact deletePollLoop_exhaust r3 10 1 (fun k hk1 hk2 => h3p k hk1 (by omega))

/-- Witness for C4: a stream whose initial request is accepted and whose
ten polls all report 409 makes all three operations fail. -/
theorem c4_poll_exhaustion_never_success_witness :
    deploy_bp_protocol (fun k => if k = 0 then 202 else 409) = DeployResult.failure ∧
    revert_bp_protocol (fun k => if k = 0 then 202 else 409) = 408 ∧
    delete_bp_protocol (fun k => if k = 0 then 202 else 409) = none := by
  have hp : ∀ k : Nat, 1 ≤ k → (if k = 0 then (202 : Nat) else 409) = 409 := by
    intro k hk
    have : k ≠ 0 := by omega
    simp [this]
  exact c4_poll_exhaustion_never_success _ _ _
    rfl (fun k h1 h2 => by rw [hp k h1]; exact ⟨by decide, Or.inl rfl⟩)
    rfl (fun k h1 h2 => hp k h1)
    rfl (fun k h1 h2 => by rw [hp k h1]; exact ⟨by decide, Or.inl rfl⟩)

/-! ## Claim C6 -/

lemma scan_foldl_acc (raw : List BlueprintData) (l : List String) :
    ∀ acc : List (String × Nat),
    l.foldl (fun acc bp_name =>
      match raw.find? (fun bp => bp.label == bp_name) with
      | some bp_data =>
        if bp_data.has_uncommitted_changes then acc ++ [(bp_name, bp_data.version)] else acc
      | none => acc) acc
    = acc ++ l.foldl (fun acc bp_name =>
      match raw.find? (fun bp => bp.label == bp_name) with
      | some bp_data =>
        if bp_data.has_uncommitted_changes then acc ++ [(bp_name, bp_data.version)] else acc
      | none => acc) [] := by
  induction l with
  | nil => intro acc; simp
  | cons x xs ih =>
    intro acc
    simp only [List.foldl_cons]
    cases hf : raw.find? (fun bp => bp.label == x) with
    | none => exact ih acc
    | some d =>
      by_cases hu : d.has_uncommitted_changes = true
      · simp only [hu, if_true]
        simp only [List.nil_append]
        rw [ih (acc ++ [(x, d.version)]), ih [(x, d.version)]]
        simp
      · simp only [Bool.not_eq_true] at hu
        simp only [hu, Bool.false_eq_true, if_false]
        exact ih acc

lemma scan_eq_filterMap (blueprints : List String) (raw : List BlueprintData) :
    scan_uncommitted blueprints raw
      = blueprints.filterMap (fun bp_name =>
          match raw.find? (fun bp => bp.label == bp_name) with
          | some bp_data =>
            if bp_data.has_uncommitted_changes then some (bp_name, bp_data.version) else none
          | none => none) := by
  unfold scan_uncommitted
  induction blueprints with
  | nil => rfl
  | cons x xs ih =>
    simp only [List.foldl_cons, List.filterMap_cons]
    cases hf : raw.find? (fun bp => bp.label == x) with
    | none => exact ih
    | some d =>
      by_cases hu : d.has_uncommitted_changes = true
      · simp only [hu, if_true]
        simp only [List.nil_append]
        rw [scan_foldl_acc raw xs [(x, d.version)], ih]
        simp
      · simp only [Bool.not_eq_true] at hu
        simp only [hu, Bool.false_eq_true, if_false]
        exact ih

lemma revert_foldl_acc (revisions : String → List Revision) (l : List (String × Nat)) :
    ∀ acc : List BpApiCall,
    l.foldl (fun calls bp =>
      if 0 < (revisions bp.1).length then calls ++ [.revertCall bp.1]
      else calls ++ [.deleteCall bp.1]) acc
    = acc ++ l.foldl (fun calls bp =>
      if 0 < (revisions bp.1).length then calls ++ [.revertCall bp.1]
      else calls ++ [.deleteCall bp.1]) [] := by
  induction l with
  | nil => intro acc; simp
  | cons x xs ih =>
    intro acc
    simp only [List.foldl_cons]
    by_cases hr : 0 < (revisions x.1).length
    · simp only [hr, if_true]
      simp only [List.nil_append]
      rw [ih (acc ++ [BpApiCall.revertCall x.1]), ih [BpApiCall.revertCall x.1]]
      simp
    · simp only [hr, if_false]
      simp only [List.nil_append]
      rw [ih (acc ++ [BpApiCall.deleteCall x.1]), ih [BpApiCall.deleteCall x.1]]
      simp

lemma revertCalls_eq_map (revisions : String → List Revision) (l : List (String × Nat)) :
    revertUncommittedBlueprints revisions l
      = l.map (fun bp =>
          if 0 < (revisions bp.1).length then BpApiCall.revertCall bp.1
          else BpApiCall.deleteCall bp.1) := by
  unfold revertUncommittedBlueprints
  induction l with
  | nil => rfl
  | cons x xs ih =>
    simp only [List.foldl_cons, List.map_cons]
    by_cases hr : 0 < (revisions x.1).length
    · simp only [hr, if_true]
      simp only [List.nil_append]
      rw [revert_foldl_acc revisions xs [BpApiCall.revertCall x.1], ih]
      simp
    · simp only [hr, if_false]
      simp only [List.nil_append]
      rw [revert_foldl_acc revisions xs [BpApiCall.deleteCall x.1], ih]
      simp

/-- C6: during the revert algorithm, for every blueprint with pending
(uncommitted) changes: if its Time Voyager revision list is non-empty, a
remote revert call is issued for it (and no delete); if the revision list
is empty, a remote delete call is issued instead (and no revert). -/
theorem c6_revert_or_delete_uncommitted (blueprints : List String)
    (raw : List BlueprintData) (revisions : String → List Revision)
    (bp : String) (bp_data : BlueprintData)
    (hmem : bp ∈ blueprints)
    (hfind : raw.find? (fun b => b.label == bp) = some bp_data)
    (hunc : bp_data.has_uncommitted_changes = true) :
    ((revisions bp ≠ [] →
        BpApiCall.revertCall bp ∈ revert_execution_blueprint_phase true blueprints raw revisions ∧
        BpApiCall.deleteCall bp ∉ revert_execution_blueprint_phase true blueprints raw revisions) ∧
     (revisions bp = [] →
        BpApiCall.deleteCall bp ∈ revert_execution_blueprint_phase true blueprints raw revisions ∧
        BpApiCall.revertCall bp ∉ revert_execution_blueprint_phase true blueprints raw revisions)) := by
  have hphase : revert_execution_blueprint_phase true blueprints raw revisions
      = revertUncommittedBlueprints revisions (scan_uncommitted blueprints raw) := rfl
  rw [hphase, revertCalls_eq_map, scan_eq_filterMap]
  have hscan_mem : (bp, bp_data.version) ∈ blueprints.filterMap (fun bp_name =>
      match raw.find? (fun b => b.label == bp_name) with
      | some bp_data =>
        if bp_data.has_uncommitted_changes then some (bp_name, bp_data.version) else none
      | none => none) := by
    rw [List.mem_filterMap]
    exact ⟨bp, hmem, by rw [hfind]; simp [hunc]⟩
  have hfst : ∀ x ∈ blueprints.filterMap (fun bp_name =>
      match raw.find? (fun b => b.label == bp_name) with
      | some bp_data =>
        if bp_data.has_uncommitted_changes then some (bp_name, bp_data.version) else none
      | none => none), True := fun _ _ => trivial
  constructor
  · intro hne
    have hlen : 0 < (revisions bp).length := List.length_pos.mpr hne
    constructor
    · rw [List.mem_map]
      exact ⟨(bp, bp_data.version), hscan_mem, by simp [hlen]⟩
    · rw [List.mem_map]
      rintro ⟨x, hx, heq⟩
      by_cases hr : 0 < (revisions x.1).length
      · simp only [hr, if_true] at heq
        exact BpApiCall.noConfusion heq
      · simp only [hr, if_false] at heq
        have hx1 : x.1 = bp := BpApiCall.deleteCall.inj heq
        rw [hx1] at hr
        exact hr hlen
  · intro hemp
    have hlen : ¬ 0 < (revisions bp).length := by simp [hemp]
    constructor
    · rw [List.mem_map]
      exact ⟨(bp, bp_data.version), hscan_mem, by simp [hlen]⟩
    · rw [List.mem_map]
      rintro ⟨x, hx, heq⟩
      by_cases hr : 0 < (revisions x.1).length
      · simp only [hr, if_true] at heq
        have hx1 : x.1 = bp := BpApiCall.revertCall.inj heq
        rw [hx1] at hr
        exact hlen hr
      · simp only [hr, if_false] at heq
        exact BpApiCall.noConfusion heq


/-- Witness for C6: two uncommitted blueprints, one with revision history
(reverted) and one without (deleted). -/
theorem c6_revert_or_delete_uncommitted_witness :
    BpApiCall.revertCall "bp1" ∈ revert_execution_blueprint_phase true ["bp1", "bp2"]
      [⟨"bp1", true, 3⟩, ⟨"bp2", true, 5⟩]
      (fun bp => if bp = "bp1" then [⟨"rev1", some "2024-01-01T00:00:00.000000Z", false⟩] else []) ∧
    BpApiCall.deleteCall "bp2" ∈ revert_execution_blueprint_phase true ["bp1", "bp2"]
      [⟨"bp1", true, 3⟩, ⟨"bp2", true, 5⟩]
      (fun bp => if bp = "bp1" then [⟨"rev1", some "2024-01-01T00:00:00.000000Z", false⟩] else []) := by
  have h1 := c6_revert_or_delete_uncommitted ["bp1", "bp2"]
    [⟨"bp1", true, 3⟩, ⟨"bp2", true, 5⟩]
    (fun bp => if bp = "bp1" then [⟨"rev1", some "2024-01-01T00:00:00.000000Z", false⟩] else [])
    "bp1" ⟨"bp1", true, 3⟩ (by decide) (by decide) rfl
  have h2 := c6_revert_or_delete_uncommitted ["bp1", "bp2"]
    [⟨"bp1", true, 3⟩, ⟨"bp2", true, 5⟩]
    (fun bp => if bp = "bp1" then [⟨"rev1", some "2024-01-01T00:00:00.000000Z", false⟩] else [])
    "bp2" ⟨"bp2", true, 5⟩ (by decide) (by decide) rfl
  exact ⟨(h1.1 (by decide)).1, (h2.2 (by decide)).1⟩

/-! ## Claim C7 -/

lemma not_im_of_deleteCallForAdded (menu apstra_object : String) (nm : Yaml)
    (c : ObjDeleteCall) (h : c ∈ deleteCallForAdded menu apstra_object nm) :
    c.isInterfaceMapDelete = false := by
  unfold deleteCallForAdded at h
  repeat' split at h
  all_goals simp_all [ObjDeleteCall.isInterfaceMapDelete]

lemma not_im_of_secondPass (input_diff : MenuDiff) (c : ObjDeleteCall)
    (h : c ∈ secondPassDeleteCalls input_diff) :
    c.isInterfaceMapDelete = false := by
  unfold secondPassDeleteCalls at h
  rw [List.mem_flatMap] at h
  obtain ⟨md, _, h⟩ := h
  rw [List.mem_flatMap] at h
  obtain ⟨ob, _, h⟩ := h
  split at h
  · rw [List.mem_flatMap] at h
    obtain ⟨added, _, h⟩ := h
    simp only [] at h
    split at h
    · exact not_im_of_deleteCallForAdded _ _ _ _ h
    · simp at h
  · split at h
    · rw [List.mem_map] at h
      obtain ⟨nm, _, h⟩ := h
      rw [← h]
      rfl
    · simp at h

lemma im_of_firstPass (input_diff : MenuDiff) (c : ObjDeleteCall)
    (h : c ∈ (interface_maps_to_remove input_diff).map
        (fun nm => ObjDeleteCall.interfaceMapDelete nm)) :
    c.isInterfaceMapDelete = true := by
  rw [List.mem_map] at h
  obtain ⟨nm, _, h⟩ := h
  rw [← h]
  rfl

lemma not_ld_of_im (c : ObjDeleteCall) (h : c.isInterfaceMapDelete = true) :
    c.isLogicalDeviceDelete = false := by
  cases c <;> simp_all [ObjDeleteCall.isInterfaceMapDelete, ObjDeleteCall.isLogicalDeviceDelete]

/-- C7: in the rollback cleanup of added non-declarative objects
(`remove_non_bp_added`), every delete issued for an interface map precedes
every delete issued for a logical device in the trace of remote calls. -/
theorem c7_interface_maps_first (input_diff : MenuDiff) (i j : Nat)
    (hi : i < (remove_non_bp_added input_diff).length)
    (hj : j < (remove_non_bp_added input_diff).length)
    (him : ((remove_non_bp_added input_diff).get ⟨i, hi⟩).isInterfaceMapDelete = true)
    (hld : ((remove_non_bp_added input_diff).get ⟨j, hj⟩).isLogicalDeviceDelete = true) :
    i < j := by
  have htr : remove_non_bp_added input_diff
      = (interface_maps_to_remove input_diff).map
          (fun nm => ObjDeleteCall.interfaceMapDelete nm)
        ++ secondPassDeleteCalls input_diff := rfl
  set A := (interface_maps_to_remove input_diff).map
    (fun nm => ObjDeleteCall.interfaceMapDelete nm) with hA
  set B := secondPassDeleteCalls input_diff with hB
  have hlen : (remove_non_bp_added input_diff).length = A.length + B.length := by
    rw [htr, List.length_append]
  have hiA : i < A.length := by
    by_contra hge
    push_neg at hge
    have hb : i - A.length < B.length := by omega
    have hgetB : (remove_non_bp_added input_diff).get ⟨i, hi⟩
        = B.get ⟨i - A.length, hb⟩ := List.get_append_right A B hge
    have hmem : B.get ⟨i - A.length, hb⟩ ∈ B := List.get_mem B _ hb
    have hf := not_im_of_secondPass input_diff _ hmem
    rw [hgetB] at him
    rw [him] at hf
    exact Bool.noConfusion hf
  have hjA : A.length ≤ j := by
    by_contra hlt
    push_neg at hlt
    have hgetA : (remove_non_bp_added input_diff).get ⟨j, hj⟩ = A.get ⟨j, hlt⟩ :=
      List.get_append j hlt
    have hmem : A.get ⟨j, hlt⟩ ∈ A := List.get_mem A _ hlt
    have him2 := im_of_firstPass input_diff _ hmem
    have hf := not_ld_of_im _ him2
    rw [hgetA] at hld
    rw [hld] at hf
    exact Bool.noConfusion hf
  omega


/-- Witness for C7: a diff adding one interface map and one logical device
yields the interface-map delete at position 0, before the logical-device
delete at position 1. -/
theorem c7_interface_maps_first_witness :
    ((remove_non_bp_added
        [("design",
          [("interface_maps", ⟨[Yaml.dict [("name", Yaml.str "im1")]], [], []⟩),
           ("logical_devices", ⟨[Yaml.dict [("name", Yaml.str "ld1")]], [], []⟩)])]).get
      ⟨0, by decide⟩).isInterfaceMapDelete = true ∧
    ((remove_non_bp_added
        [("design",
          [("interface_maps", ⟨[Yaml.dict [("name", Yaml.str "im1")]], [], []⟩),
           ("logical_devices", ⟨[Yaml.dict [("name", Yaml.str "ld1")]], [], []⟩)])]).get
      ⟨1, by decide⟩).isLogicalDeviceDelete = true ∧
    (0 : Nat) < 1 := by
  refine ⟨by decide, by decide, ?_⟩
  exact c7_interface_maps_first
    [("design",
      [("interface_maps", ⟨[Yaml.dict [("name", Yaml.str "im1")]], [], []⟩),
       ("logical_devices", ⟨[Yaml.dict [("name", Yaml.str "ld1")]], [], []⟩)])]
    0 1 (by decide) (by decide) (by decide) (by decide)

/-! ## Claim C2 -/

lemma filterMap_of_removeExecDir {α : Type} (k : Nat) (F : Nat × α → Option (Nat × α))
    (fs : ExecDirs α) :
    (removeExecDir fs k).filterMap F
      = fs.filterMap (fun p => if p.1 = k then none else F p) := by
  induction fs with
  | nil => rfl
  | cons x xs ih =>
    unfold removeExecDir at ih ⊢
    by_cases hx : x.1 = k
    · simp [hx, ih]
    · have hbx : (x.1 == k) = false := by simpa using hx
      rw [List.filter_cons]
      simp only [hbx, Bool.not_false, if_true]
      rw [List.filterMap_cons, List.filterMap_cons]
      simp only [hx, Bool.false_eq_true, if_false, ih]

lemma filterMap_of_renameExecDir {α : Type} (k j : Nat) (F : Nat × α → Option (Nat × α))
    (fs : ExecDirs α) :
    (renameExecDir fs k j).filterMap F
      = fs.filterMap (fun p => if p.1 = k then F (j, p.2) else F p) := by
  induction fs with
  | nil => rfl
  | cons x xs ih =>
    unfold renameExecDir at ih ⊢
    by_cases hx : x.1 = k
    · simp only [List.map_cons, List.filterMap_cons, hx, beq_self_eq_true, if_true]
      rw [ih]
    · have hbx : (x.1 == k) = false := by simpa using hx
      simp only [List.map_cons, List.filterMap_cons, hx, hbx, Bool.false_eq_true, if_false]
      rw [ih]

lemma rotate_fold_eq {α : Type} (T : Nat) : ∀ (ks : List Nat) (fs : ExecDirs α),
    ks.Pairwise (· > ·) →
    ks.foldl (rotateStep T) fs
      = fs.filterMap (fun p =>
          if p.1 ∈ ks then (if p.1 + 1 > T then none else some (p.1 + 1, p.2))
          else some p) := by
  intro ks
  induction ks with
  | nil =>
    intro fs _
    simp
  | cons k rest ih =>
    intro fs hp
    have hgt : ∀ x ∈ rest, k > x := fun x hx => List.rel_of_pairwise_cons hp hx
    have hrest : rest.Pairwise (· > ·) := hp.of_cons
    rw [List.foldl_cons, ih (rotateStep T fs k) hrest]
    unfold rotateStep
    by_cases hT : k + 1 > T
    · simp only [hT, if_true]
      rw [filterMap_of_removeExecDir]
      apply List.filterMap_congr
      intro p _
      by_cases hpk : p.1 = k
      · simp [hpk, hT, List.mem_cons_self]
      · simp [List.mem_cons, hpk]
    · simp only [hT, if_false]
      rw [filterMap_of_renameExecDir]
      apply List.filterMap_congr
      intro p _
      by_cases hpk : p.1 = k
      · have hnotin : k + 1 ∉ rest := by
          intro hmem
          have hgtk := hgt (k + 1) hmem
          omega
        simp [hpk, hnotin, hT, List.mem_cons_self]
      · simp [List.mem_cons, hpk]

lemma rotate_eq {α : Type} (T : Nat) (fs : ExecDirs α)
    (hnd : (fs.map Prod.fst).Nodup) :
    rotateExecutionDirs T fs
      = fs.filterMap (fun p => if p.1 + 1 > T then none else some (p.1 + 1, p.2)) := by
  unfold rotateExecutionDirs
  have hsorted : (List.insertionSort (· ≤ ·) (fs.map Prod.fst)).Sorted (· ≤ ·) :=
    List.sorted_insertionSort _ _
  have hndsort : (List.insertionSort (· ≤ ·) (fs.map Prod.fst)).Nodup :=
    ((List.perm_insertionSort _ _).nodup_iff).mpr hnd
  have hlt : (List.insertionSort (· ≤ ·) (fs.map Prod.fst)).Sorted (· < ·) :=
    hsorted.lt_of_le hndsort
  have hpair : ((List.insertionSort (· ≤ ·) (fs.map Prod.fst)).reverse).Pairwise (· > ·) := by
    rw [List.pairwise_reverse]
    exact hlt
  rw [rotate_fold_eq T _ fs hpair]
  apply List.filterMap_congr
  intro p hp
  have hmem : p.1 ∈ (List.insertionSort (· ≤ ·) (fs.map Prod.fst)).reverse := by
    rw [List.mem_reverse, List.mem_insertionSort]
    exact List.mem_map_of_mem Prod.fst hp
  simp only [hmem, if_true]

lemma manage_shape {α : Type} (T : Nat) (inp : α) (fs : ExecDirs α)
    (hnd : (fs.map Prod.fst).Nodup) :
    manage_execution_dirs_initial T inp fs
      = (0, inp) :: fs.filterMap (fun p => if p.1 + 1 > T then none else some (p.1 + 1, p.2)) := by
  unfold manage_execution_dirs_initial
  rw [rotate_eq T fs hnd]

lemma keys_filterMap_shift {α : Type} (T : Nat) (fs : ExecDirs α) :
    (fs.filterMap (fun p => if p.1 + 1 > T then none else some (p.1 + 1, p.2))).map Prod.fst
      = (fs.map Prod.fst).filterMap (fun k => if k + 1 > T then none else some (k + 1)) := by
  induction fs with
  | nil => rfl
  | cons x xs ih =>
    by_cases hT : x.1 + 1 > T
    · simp only [List.filterMap_cons, List.map_cons, hT, if_true]
      exact ih
    · simp only [List.filterMap_cons, List.map_cons, hT, if_false]
      rw [ih]

lemma nodup_shift_keys (T : Nat) (l : List Nat) (hnd : l.Nodup) :
    (l.filterMap (fun k => if k + 1 > T then none else some (k + 1))).Nodup := by
  apply List.Nodup.filterMap
  · intro a a' b hb hb'
    by_cases ha : a + 1 > T
    · simp [ha] at hb
    · by_cases ha' : a' + 1 > T
      · simp [ha'] at hb'
      · simp only [ha, if_false, Option.mem_def, Option.some.injEq] at hb
        simp only [ha', if_false, Option.mem_def, Option.some.injEq] at hb'
        omega
  · exact hnd

lemma shift_keys_bound (T : Nat) (l : List Nat) :
    ∀ x ∈ l.filterMap (fun k => if k + 1 > T then none else some (k + 1)),
      1 ≤ x ∧ x ≤ T := by
  intro x hx
  rw [List.mem_filterMap] at hx
  obtain ⟨a, _, ha⟩ := hx
  by_cases hT : a + 1 > T
  · simp [hT] at ha
  · simp only [hT, if_false, Option.some.injEq] at ha
    omega

lemma nat_list_length_le (T : Nat) (l : List Nat) (hnd : l.Nodup)
    (hb : ∀ x ∈ l, 1 ≤ x ∧ x ≤ T) : l.length ≤ T := by
  classical
  rw [← List.toFinset_card_of_nodup hnd]
  have hsub : l.toFinset ⊆ Finset.Icc 1 T := by
    intro x hx
    rw [List.mem_toFinset] at hx
    rw [Finset.mem_Icc]
    exact hb x hx
  calc l.toFinset.card ≤ (Finset.Icc 1 T).card := Finset.card_le_card hsub
    _ = T := by rw [Nat.card_Icc]; omega

lemma manage_step_props {α : Type} (T : Nat) (inp : α) (fs : ExecDirs α)
    (hnd : (fs.map Prod.fst).Nodup) :
    (manage_execution_dirs_initial T inp fs).length ≤ T + 1 ∧
    lookupExec (manage_execution_dirs_initial T inp fs) 0 = some inp ∧
    ((manage_execution_dirs_initial T inp fs).map Prod.fst).Nodup := by
  rw [manage_shape T inp fs hnd]
  have hkeys := keys_filterMap_shift T fs
  have hnd2 := nodup_shift_keys T (fs.map Prod.fst) hnd
  have hbound := shift_keys_bound T (fs.map Prod.fst)
  refine ⟨?_, ?_, ?_⟩
  · have hlen : (fs.filterMap
        (fun p => if p.1 + 1 > T then none else some (p.1 + 1, p.2))).length ≤ T := by
      have hml : (fs.filterMap
            (fun p => if p.1 + 1 > T then none else some (p.1 + 1, p.2))).length
          = ((fs.map Prod.fst).filterMap
              (fun k => if k + 1 > T then none else some (k + 1))).length := by
        rw [← hkeys, List.length_map]
      rw [hml]
      exact nat_list_length_le T _ hnd2 hbound
    simp only [List.length_cons]
    omega
  · rfl
  · rw [List.map_cons, hkeys]
    refine List.Nodup.cons ?_ hnd2
    intro hmem
    obtain ⟨h1, _⟩ := shift_keys_bound T (fs.map Prod.fst) 0 hmem
    omega

/-- C2: for every sequence of `manage_execution_dirs` initial-stage calls
with retention threshold T, after each call the number of retained
`execution_*` directories never exceeds T+1 (each pre-existing
`execution_k` is renamed to `execution_{k+1}` and any directory whose new
number exceeds T is deleted), and `execution_0` exists and holds the
snapshot of the inputs of the most recent call. -/
theorem c2_rotation_invariant {α : Type} (T : Nat) (fs0 : ExecDirs α)
    (inputs pre post : List α) (input : α)
    (hnd : (fs0.map Prod.fst).Nodup)
    (_hsplit : inputs = pre ++ input :: post) :
    ((pre ++ [input]).foldl
        (fun fs inp => manage_execution_dirs_initial T inp fs) fs0).length ≤ T + 1 ∧
    lookupExec ((pre ++ [input]).foldl
        (fun fs inp => manage_execution_dirs_initial T inp fs) fs0) 0 = some input := by
  clear _hsplit
  induction pre generalizing fs0 with
  | nil =>
    simp only [List.nil_append, List.foldl_cons, List.foldl_nil]
    have h := manage_step_props T input fs0 hnd
    exact ⟨h.1, h.2.1⟩
  | cons x xs ih =>
    simp only [List.cons_append, List.foldl_cons]
    exact ih (manage_execution_dirs_initial T x fs0)
      (manage_step_props T x fs0 hnd).2.2

/-- Witness for C2: three calls with threshold 1 retain at most two
directories and leave the last input in `execution_0`. -/
theorem c2_rotation_invariant_witness :
    (([0, 1, 2] : List Nat) = [0] ++ 1 :: [2]) ∧
    ((([0, 1] : List Nat) ++ [2]).foldl
        (fun fs inp => manage_execution_dirs_initial 1 inp fs) ([] : ExecDirs Nat)).length ≤ 2 ∧
    lookupExec ((([0, 1] : List Nat) ++ [2]).foldl
        (fun fs inp => manage_execution_dirs_initial 1 inp fs) ([] : ExecDirs Nat)) 0 = some 2 := by
  refine ⟨by decide, ?_, ?_⟩
  · exact (c2_rotation_invariant 1 [] [0, 1, 2] [0, 1] [] 2 (by decide) (by decide)).1
  · exact (c2_rotation_invariant 1 [] [0, 1, 2] [0, 1] [] 2 (by decide) (by decide)).2

/-! ## Claim C3 -/

lemma keep_unchanged (id : String) (l : List Revision)
    (h : ∀ r ∈ l, r.revision_id ≠ id) : keep_revision l id = l := by
  induction l with
  | nil => rfl
  | cons x xs ih =>
    unfold keep_revision at ih ⊢
    have hx : (x.revision_id == id) = false := by
      simpa using h x (List.mem_cons_self x xs)
    simp only [List.map_cons, hx, Bool.false_eq_true, if_false]
    rw [ih (fun r hr => h r (List.mem_cons_of_mem x hr))]

lemma remove_unchanged (id : String) (l : List Revision)
    (h : ∀ r ∈ l, r.revision_id ≠ id) : remove_revision l id = l := by
  induction l with
  | nil => rfl
  | cons x xs ih =>
    unfold remove_revision at ih ⊢
    have hx : (x.revision_id == id) = false := by
      simpa using h x (List.mem_cons_self x xs)
    simp only [List.filter_cons, hx, Bool.not_false, if_true]
    rw [ih (fun r hr => h r (List.mem_cons_of_mem x hr))]

lemma keep_perm_le (id : String) (l : List Revision)
    (hnd : (l.map Revision.revision_id).Nodup) :
    (get_permanent_revisions (keep_revision l id)).length
      ≤ (get_permanent_revisions l).length + 1 := by
  induction l with
  | nil => simp [keep_revision, get_permanent_revisions]
  | cons x xs ih =>
    rw [List.map_cons, List.nodup_cons] at hnd
    unfold keep_revision get_permanent_revisions at ih ⊢
    by_cases hx : (x.revision_id == id) = true
    · have hid : x.revision_id = id := by simpa using hx
      have htail : keep_revision xs id = xs := by
        apply keep_unchanged
        intro r hr he
        apply hnd.1
        have hrx : r.revision_id = x.revision_id := by rw [he, hid]
        rw [← hrx]
        exact List.mem_map_of_mem Revision.revision_id hr
      unfold keep_revision at htail
      simp only [List.map_cons, hx, if_true, htail]
      by_cases hu : x.user_saved = true
      · simp [List.filter_cons, hu]
      · simp only [Bool.not_eq_true] at hu
        simp [List.filter_cons, hu]
    · simp only [List.map_cons, hx, Bool.false_eq_true, if_false]
      by_cases hu : x.user_saved = true
      · simp only [List.filter_cons, hu, if_true]
        simp only [List.length_cons]
        have := ih hnd.2
        omega
      · simp only [Bool.not_eq_true] at hu
        simp only [List.filter_cons, hu, Bool.false_eq_true, if_false]
        exact ih hnd.2

lemma remove_perm_lt (r : Revision) (l : List Revision)
    (hmem : r ∈ l) (hus : r.user_saved = true)
    (hnd : (l.map Revision.revision_id).Nodup) :
    (get_permanent_revisions (remove_revision l r.revision_id)).length + 1
      ≤ (get_permanent_revisions l).length := by
  induction l with
  | nil => simp at hmem
  | cons x xs ih =>
    rw [List.map_cons, List.nodup_cons] at hnd
    rcases List.mem_cons.mp hmem with hxr | hr
    · have hid : x.revision_id = r.revision_id := by rw [← hxr]
      have hxu : x.user_saved = true := by rw [← hxr]; exact hus
      have htail : remove_revision xs r.revision_id = xs := by
        apply remove_unchanged
        intro s hs he
        apply hnd.1
        have hsx : s.revision_id = x.revision_id := by rw [he, hid]
        rw [← hsx]
        exact List.mem_map_of_mem Revision.revision_id hs
      unfold remove_revision get_permanent_revisions
      unfold remove_revision at htail
      have hxb : (x.revision_id == r.revision_id) = true := by simpa using hid
      simp only [List.filter_cons, hxb, Bool.not_true, Bool.false_eq_true, if_false, htail,
        hxu, if_true, List.length_cons]
      omega
    · have hx : (x.revision_id == r.revision_id) = false := by
        have hne : x.revision_id ≠ r.revision_id := by
          intro he
          exact hnd.1 (by rw [he]; exact List.mem_map_of_mem Revision.revision_id hr)
        simpa using hne
      unfold remove_revision get_permanent_revisions at ih ⊢
      simp only [List.filter_cons, hx, Bool.not_false, if_true]
      by_cases hu : x.user_saved = true
      · simp only [List.filter_cons, hu, if_true, List.length_cons]
        have := ih hr hnd.2
        omega
      · simp only [Bool.not_eq_true] at hu
        simp only [List.filter_cons, hu, Bool.false_eq_true, if_false]
        exact ih hr hnd.2

lemma pyMinBy_mem (k : Revision → String) (l : List Revision) (r : Revision)
    (h : pyMinBy k l = some r) : r ∈ l := by
  cases l with
  | nil => simp [pyMinBy] at h
  | cons x xs =>
    unfold pyMinBy at h
    rw [Option.some.injEq] at h
    subst h
    induction xs generalizing x with
    | nil => simp
    | cons y ys ih =>
      simp only [List.foldl_cons]
      by_cases hlt : pyStrLt (k y) (k x) = true
      · simp only [hlt, if_true]
        have := ih y
        rcases List.mem_cons.mp this with hh | hh
        · rw [hh]
          exact List.mem_cons_of_mem x (List.mem_cons_self y ys)
        · exact List.mem_cons_of_mem x (List.mem_cons_of_mem y hh)
      · simp only [hlt, Bool.false_eq_true, if_false]
        have := ih x
        rcases List.mem_cons.mp this with hh | hh
        · rw [hh]
          exact List.mem_cons_self x (y :: ys)
        · exact List.mem_cons_of_mem x (List.mem_cons_of_mem y hh)

lemma oldest_mem (l : List Revision) (r : Revision)
    (h : get_oldest_revision l = some r) : r ∈ l := by
  unfold get_oldest_revision at h
  by_cases he : l.isEmpty
  · simp [he] at h
  · simp only [he, Bool.false_eq_true, if_false] at h
    exact pyMinBy_mem _ _ _ h

lemma filter_map_nodup (l : List Revision) (p : Revision → Bool)
    (hnd : (l.map Revision.revision_id).Nodup) :
    ((l.filter p).map Revision.revision_id).Nodup := by
  apply List.Nodup.sublist _ hnd
  exact List.Sublist.map _ (List.filter_sublist l)

/-- C3 (amended): the post-commit quota step of `deploy_bp` evicts the
revision with the earliest `created_at` among ALL revisions of the
blueprint (`get_oldest_revision` does not restrict to `user_saved` ones);
provided that this oldest revision is itself `user_saved` whenever the
quota is full, the number of `user_saved` revisions never exceeds
`max_permanent_revisions` (25). -/
theorem c3_quota_amended (revs : List Revision) (newId : String)
    (hnd : (revs.map Revision.revision_id).Nodup)
    (hle : (get_permanent_revisions revs).length ≤ max_permanent_revisions)
    (hold : (get_permanent_revisions revs).length = max_permanent_revisions →
      ∃ r, get_oldest_revision revs = some r ∧ r.user_saved = true) :
    (get_permanent_revisions (deploy_bp_quota_step revs newId)).length
      ≤ max_permanent_revisions := by
  unfold deploy_bp_quota_step
  by_cases hfull : max_permanent_revisions ≤ (get_permanent_revisions revs).length
  · have heq : (get_permanent_revisions revs).length = max_permanent_revisions := by omega
    obtain ⟨r, hr, hrus⟩ := hold heq
    simp only [hfull, if_true, hr]
    have hmem := oldest_mem revs r hr
    have hrem := remove_perm_lt r revs hmem hrus hnd
    have hnd2 : ((remove_revision revs r.revision_id).map Revision.revision_id).Nodup :=
      filter_map_nodup revs _ hnd
    have hkeep := keep_perm_le newId (remove_revision revs r.revision_id) hnd2
    omega
  · simp only [hfull, if_false]
    have hkeep := keep_perm_le newId revs hnd
    omega

set_option maxRecDepth 8000 in
/-- Counterexample to C3 as stated: a blueprint whose Time Voyager holds
25 permanently saved revisions plus one older automatic (non saved)
revision.  The quota step of `deploy_bp` evicts the oldest revision
overall, which is the automatic one, and then keeps the new revision, so
26 revisions are `user_saved` afterwards: the claimed invariant fails,
and the evicted revision was not the oldest `user_saved` one. -/
theorem c3_quota_counterexample :
    (get_permanent_revisions
        (Revision.mk "a0" (some "2020-01-01T00:00:00.000000Z") false
          :: Revision.mk "v26" (some "2022-01-01T00:00:00.000000Z") false
          :: (List.range 25).map
              (fun i => Revision.mk (Nat.repr i) (some "2021-06-01T00:00:00.000000Z") true))).length
      = max_permanent_revisions ∧
    max_permanent_revisions
      < (get_permanent_revisions
          (deploy_bp_quota_step
            (Revision.mk "a0" (some "2020-01-01T00:00:00.000000Z") false
              :: Revision.mk "v26" (some "2022-01-01T00:00:00.000000Z") false
              :: (List.range 25).map
                  (fun i => Revision.mk (Nat.repr i) (some "2021-06-01T00:00:00.000000Z") true))
            "v26")).length := by
  decide

/-- Witness for the amended C3: one saved and one fresh revision stay
within the quota. -/
theorem c3_quota_amended_witness :
    ((([Revision.mk "p1" (some "2021-01-01T00:00:00.000000Z") true,
        Revision.mk "v2" (some "2022-01-01T00:00:00.000000Z") false] : List Revision).map
          Revision.revision_id).Nodup) ∧
    (get_permanent_revisions
        ([Revision.mk "p1" (some "2021-01-01T00:00:00.000000Z") true,
          Revision.mk "v2" (some "2022-01-01T00:00:00.000000Z") false])).length
      ≤ max_permanent_revisions ∧
    (get_permanent_revisions
        (deploy_bp_quota_step
          [Revision.mk "p1" (some "2021-01-01T00:00:00.000000Z") true,
           Revision.mk "v2" (some "2022-01-01T00:00:00.000000Z") false] "v2")).length
      ≤ max_permanent_revisions := by
  refine ⟨by decide, by decide, ?_⟩
  exact c3_quota_amended
    [Revision.mk "p1" (some "2021-01-01T00:00:00.000000Z") true,
     Revision.mk "v2" (some "2022-01-01T00:00:00.000000Z") false] "v2"
    (by decide) (by decide) (fun h => absurd h (by decide))

/-! ## Claim C5 -/

lemma ensureKey_not_mem (rs : DiffResults) (k : String)
    (h : ∀ p ∈ rs, p.1 ≠ k) : ensureKey rs k = rs ++ [(k, Buckets.empty)] := by
  unfold ensureKey
  have hany : rs.any (fun p => p.1 == k) = false := by
    rw [List.any_eq_false]
    intro p hp
    simpa using h p hp
  simp [hany]

lemma updateKey_append (rs : DiffResults) (k : String) (b : Buckets) (f : Buckets → Buckets)
    (h : ∀ p ∈ rs, p.1 ≠ k) :
    updateKey (rs ++ [(k, b)]) k f = rs ++ [(k, f b)] := by
  unfold updateKey
  rw [List.map_append]
  have h1 : rs.map (fun p => if p.1 == k then (p.1, f p.2) else p) = rs := by
    induction rs with
    | nil => rfl
    | cons x xs ih =>
      have hx : (x.1 == k) = false := by simpa using h x (List.mem_cons_self x xs)
      rw [List.map_cons, ih (fun p hp => h p (List.mem_cons_of_mem x hp))]
      simp [hx]
  rw [h1]
  simp

lemma firstExecAdd_fold : ∀ (kvs : List (String × Yaml)) (rs : DiffResults),
    (kvs.map Prod.fst).Nodup →
    (∀ p ∈ rs, p.1 ∉ kvs.map Prod.fst) →
    kvs.foldl firstExecAdd rs
      = rs ++ kvs.map (fun kv => (kv.1, Buckets.mk (menuObjects kv.2) [] [])) := by
  intro kvs
  induction kvs with
  | nil =>
    intro rs _ _
    simp
  | cons kv rest ih =>
    intro rs hnd hdisj
    rw [List.map_cons, List.nodup_cons] at hnd
    have hknotin : ∀ p ∈ rs, p.1 ≠ kv.1 := by
      intro p hp
      have := hdisj p hp
      simp only [List.map_cons, List.mem_cons] at this
      intro he
      exact this (Or.inl he)
    have hstep : firstExecAdd rs kv = rs ++ [(kv.1, Buckets.mk (menuObjects kv.2) [] [])] := by
      unfold firstExecAdd
      rw [ensureKey_not_mem rs kv.1 hknotin]
      simp only []
      cases hv : kv.2 with
      | list l =>
        show updateKey (rs ++ [(kv.1, Buckets.empty)]) kv.1
            (fun b => { added := b.added ++ l, changed := b.changed, removed := b.removed })
          = rs ++ [(kv.1, Buckets.mk (menuObjects (Yaml.list l)) [] [])]
        rw [updateKey_append rs kv.1 Buckets.empty _ hknotin]
        simp [menuObjects, Buckets.empty]
      | dict d =>
        show firstExecAddUserDefined (rs ++ [(kv.1, Buckets.empty)]) kv.1
            ((Yaml.dict d).get? "user_defined")
          = rs ++ [(kv.1, Buckets.mk (menuObjects (Yaml.dict d)) [] [])]
        cases hud : (Yaml.dict d).get? "user_defined" with
        | none =>
          simp [firstExecAddUserDefined, menuObjects, hud, Buckets.empty]
        | some v =>
          cases v with
          | list ud =>
            show updateKey (rs ++ [(kv.1, Buckets.empty)]) kv.1
                (fun b => { added := b.added ++ ud, changed := b.changed, removed := b.removed })
              = rs ++ [(kv.1, Buckets.mk (menuObjects (Yaml.dict d)) [] [])]
            rw [updateKey_append rs kv.1 Buckets.empty _ hknotin]
            simp [menuObjects, hud, Buckets.empty]
          | null => simp [firstExecAddUserDefined, menuObjects, hud, Buckets.empty]
          | str s => simp [firstExecAddUserDefined, menuObjects, hud, Buckets.empty]
          | nat n => simp [firstExecAddUserDefined, menuObjects, hud, Buckets.empty]
          | bool b => simp [firstExecAddUserDefined, menuObjects, hud, Buckets.empty]
          | dict d2 => simp [firstExecAddUserDefined, menuObjects, hud, Buckets.empty]
      | null => simp [menuObjects, Buckets.empty]
      | str s => simp [menuObjects, Buckets.empty]
      | nat n => simp [menuObjects, Buckets.empty]
      | bool b => simp [menuObjects, Buckets.empty]
    rw [List.foldl_cons, hstep]
    rw [ih (rs ++ [(kv.1, Buckets.mk (menuObjects kv.2) [] [])]) hnd.2 ?_]
    · simp
    · intro p hp
      rcases List.mem_append.mp hp with hin | hone
      · intro hmem
        exact hdisj p hin (List.mem_cons_of_mem kv.1 hmem)
      · have hp1 : p.1 = kv.1 := by
          rcases List.mem_singleton.mp hone with rfl
          rfl
        rw [hp1]
        exact hnd.1

/-- C5: when the previous non-declarative snapshot is absent or empty
(parsed as null, so DeepDiff reports a single root type change carrying
the whole current snapshot as new value) and the current snapshot is
populated, `process_diff` classifies every object of the current snapshot
as added under its object-type bucket, with zero changed and zero removed
entries. -/
theorem c5_first_execution_all_added (cur : Yaml) (kvs : List (String × Yaml))
    (details : Yaml)
    (hcur : cur = Yaml.dict kvs)
    (hnd : (kvs.map Prod.fst).Nodup)
    (hnew : details.get? "new_value" = some cur) :
    process_diff [("type_changes", DiffEntryBody.detailMap [([], details)])] Yaml.null cur none
      = kvs.map (fun kv => (kv.1, Buckets.mk (menuObjects kv.2) [] [])) := by
  subst hcur
  unfold process_diff
  rw [List.foldl_cons, List.foldl_nil]
  rw [if_pos (by decide : ("type_changes" : String) ∈ added_types ++ changed_types ++ removed_types)]
  show (List.foldl (processDictChange none Yaml.null (Yaml.dict kvs) "type_changes")
    ([], []) [(([] : DiffPath), details)]).1 = _
  rw [List.foldl_cons, List.foldl_nil]
  unfold processDictChange
  rw [if_pos (by decide : (("type_changes" == "type_changes") && (([] : DiffPath) == ([] : DiffPath))) = true)]
  rw [hnew]
  show (kvs.foldl firstExecAdd [], ([] : List DiffPath)).1 = _
  rw [firstExecAdd_fold kvs [] hnd (by intro p hp; simp at hp)]
  simp


/-- Witness for C5: a snapshot with a plain object list and a
`user_defined` dictionary section is classified entirely as added. -/
theorem c5_first_execution_all_added_witness :
    process_diff
      [("type_changes", DiffEntryBody.detailMap
        [([], Yaml.dict
          [("old_type", Yaml.str "NoneType"), ("new_type", Yaml.str "dict"),
           ("old_value", Yaml.null),
           ("new_value", Yaml.dict
             [("configlets", Yaml.list [Yaml.dict [("name", Yaml.str "c1")]]),
              ("templates", Yaml.dict
                [("user_defined", Yaml.list [Yaml.dict [("name", Yaml.str "t1")]])])])])])]
      Yaml.null
      (Yaml.dict
        [("configlets", Yaml.list [Yaml.dict [("name", Yaml.str "c1")]]),
         ("templates", Yaml.dict
           [("user_defined", Yaml.list [Yaml.dict [("name", Yaml.str "t1")]])])])
      none
      = [("configlets", Buckets.mk [Yaml.dict [("name", Yaml.str "c1")]] [] []),
         ("templates", Buckets.mk [Yaml.dict [("name", Yaml.str "t1")]] [] [])] := by
  exact c5_first_execution_all_added
    (Yaml.dict
      [("configlets", Yaml.list [Yaml.dict [("name", Yaml.str "c1")]]),
       ("templates", Yaml.dict
         [("user_defined", Yaml.list [Yaml.dict [("name", Yaml.str "t1")]])])])
    [("configlets", Yaml.list [Yaml.dict [("name", Yaml.str "c1")]]),
     ("templates", Yaml.dict
       [("user_defined", Yaml.list [Yaml.dict [("name", Yaml.str "t1")]])])]
    (Yaml.dict
      [("old_type", Yaml.str "NoneType"), ("new_type", Yaml.str "dict"),
       ("old_value", Yaml.null),
       ("new_value", Yaml.dict
         [("configlets", Yaml.list [Yaml.dict [("name", Yaml.str "c1")]]),
          ("templates", Yaml.dict
            [("user_defined", Yaml.list [Yaml.dict [("name", Yaml.str "t1")]])])])])
    rfl (by decide) rfl

/-! ## Claim C1 -/

lemma find_unique {α : Type} (p : α → Bool) (a : α) : ∀ l : List α,
    a ∈ l → p a = true → (∀ y ∈ l, p y = true → y = a) → l.find? p = some a := by
  intro l
  induction l with
  | nil => intro h; simp at h
  | cons x xs ih =>
    intro hmem hpa huniq
    by_cases hpx : p x = true
    · rw [List.find?_cons_of_pos _ hpx]
      rw [huniq x (List.mem_cons_self x xs) hpx]
    · rw [List.find?_cons_of_neg _ (by simpa using hpx)]
      have hax : a ≠ x := fun he => hpx (he ▸ hpa)
      have hmem2 : a ∈ xs := by
        rcases List.mem_cons.mp hmem with he | he
        · exact absurd he hax
        · exact he
      exact ih hmem2 hpa (fun y hy hpy => huniq y (List.mem_cons_of_mem x hy) hpy)

lemma truthy_of_get (y : Yaml) (k : String) (v : Yaml) (h : y.get? k = some v) :
    y.truthy = true := by
  cases y with
  | dict kvs =>
    cases kvs with
    | nil => simp [Yaml.get?, List.find?] at h
    | cons x xs => simp [Yaml.truthy]
  | null => simp [Yaml.get?] at h
  | str s => simp [Yaml.get?] at h
  | nat n => simp [Yaml.get?] at h
  | bool b => simp [Yaml.get?] at h
  | list xs => simp [Yaml.get?] at h

lemma getD_null_eq_some (o : Option Yaml) (n : String)
    (h : (o.getD Yaml.null == Yaml.str n) = true) : o = some (Yaml.str n) := by
  cases o with
  | none => simp at h
  | some v =>
    simp only [Option.getD_some] at h
    rw [beq_iff_eq] at h
    rw [h]

lemma find_nested_of_unique_name (file : Yaml) (T : String) (objs : List Yaml)
    (i : Nat) (obj : Yaml) (n : String)
    (hT : file.get? T = some (Yaml.list objs))
    (hi : objs.get? i = some obj)
    (hn : obj.get? "name" = some (Yaml.str n))
    (hnd : (objs.map (fun o => o.get? "name")).Nodup) :
    find_nested_dict_entry file T "name" (Yaml.str n) = some obj := by
  unfold find_nested_dict_entry
  rw [hT]
  apply find_unique
  · exact List.get?_mem hi
  · rw [hn]
    simp
  · intro y hy hpy
    have hyn : y.get? "name" = some (Yaml.str n) := getD_null_eq_some _ _ hpy
    exact List.inj_on_of_nodup_map hnd hy (List.get?_mem hi) (by rw [hyn, hn])

lemma processDictChange_rename (pf cf : Yaml)
    (T : String) (i : Nat) (n n2 : String) (prevObj curObj : Yaml)
    (hfindp : find_nested_dict_entry pf T "name" (Yaml.str n) = some prevObj)
    (hfindc : find_nested_dict_entry cf T "name" (Yaml.str n2) = some curObj)
    (hpt : prevObj.truthy = true) (hct : curObj.truthy = true) :
    processDictChange none pf cf "values_changed" ([], [])
      ([Seg.key T, Seg.idx i, Seg.key "name"],
       Yaml.dict [("old_value", Yaml.str n), ("new_value", Yaml.str n2)])
      = ([(T, Buckets.mk [curObj] [] [prevObj])],
         [[Seg.key T, Seg.idx i]]) := by
  unfold processDictChange
  simp only [show (("values_changed" : String) == "type_changes") = false from rfl,
    show (("values_changed" : String) == "values_changed") = true from rfl,
    show (([Seg.key T, Seg.idx i, Seg.key "name"] : DiffPath) == ([] : DiffPath)) = false
      from rfl,
    Bool.false_and, Bool.and_false, Bool.true_and, Bool.false_eq_true, if_false,
    firstKeyOf, extract_segments,
    show ((("values_changed" : String) ∈ changed_types)) = True from by
      simp [changed_types],
    show lastSegIsName ([Seg.key T, Seg.idx i, Seg.key "name"] : DiffPath) = true from rfl,
    if_true,
    show (((Yaml.dict [("old_value", Yaml.str n), ("new_value", Yaml.str n2)]).get?
        "old_value").getD (Yaml.str "")) = Yaml.str n from rfl,
    show (((Yaml.dict [("old_value", Yaml.str n), ("new_value", Yaml.str n2)]).get?
        "new_value").getD (Yaml.str "")) = Yaml.str n2 from rfl,
    hfindp, hfindc, hpt, hct, Bool.and_self,
    show ensureKey [] T = [(T, Buckets.empty)] from rfl,
    updateKey, List.map_cons, List.map_nil, beq_self_eq_true, List.take,
    Buckets.empty, List.nil_append]


/-- C1: for two non-declarative snapshots in which exactly one object of
type T changed its `name` attribute (from n to n2, all other attributes
and all other objects unchanged, names unique within the type) and whose
DeepDiff is therefore the single values-changed entry at the `name` path,
`process_diff` emits the full old object exactly once under `removed`,
the full new object exactly once under `added`, and nothing under
`changed`. -/
theorem c1_rename_is_remove_plus_add
    (previous_file current_file : Yaml) (T : String) (i : Nat)
    (prevObjs curObjs : List Yaml) (prevObj curObj : Yaml) (n n2 : String)
    (hpT : previous_file.get? T = some (Yaml.list prevObjs))
    (hcT : current_file.get? T = some (Yaml.list curObjs))
    (hpi : prevObjs.get? i = some prevObj)
    (hci : curObjs.get? i = some curObj)
    (_hset : curObjs = prevObjs.set i curObj)
    (hpn : prevObj.get? "name" = some (Yaml.str n))
    (hcn : curObj.get? "name" = some (Yaml.str n2))
    (_hne : n ≠ n2)
    (_hrest : ∀ key, key ≠ "name" → curObj.get? key = prevObj.get? key)
    (hpnd : (prevObjs.map (fun o => o.get? "name")).Nodup)
    (hcnd : (curObjs.map (fun o => o.get? "name")).Nodup) :
    process_diff
      [("values_changed", DiffEntryBody.detailMap
        [([Seg.key T, Seg.idx i, Seg.key "name"],
          Yaml.dict [("old_value", Yaml.str n), ("new_value", Yaml.str n2)])])]
      previous_file current_file none
      = [(T, Buckets.mk [curObj] [] [prevObj])] := by
  have hfindp := find_nested_of_unique_name previous_file T prevObjs i prevObj n hpT hpi hpn hpnd
  have hfindc := find_nested_of_unique_name current_file T curObjs i curObj n2 hcT hci hcn hcnd
  have hpt : prevObj.truthy = true := truthy_of_get prevObj "name" _ hpn
  have hct : curObj.truthy = true := truthy_of_get curObj "name" _ hcn
  unfold process_diff
  rw [List.foldl_cons, List.foldl_nil]
  rw [if_pos (by decide :
    ("values_changed" : String) ∈ added_types ++ changed_types ++ removed_types)]
  show (List.foldl
      (processDictChange none previous_file current_file "values_changed") ([], [])
      [([Seg.key T, Seg.idx i, Seg.key "name"],
        Yaml.dict [("old_value", Yaml.str n), ("new_value", Yaml.str n2)])]).1
    = _
  rw [List.foldl_cons, List.foldl_nil]
  rw [processDictChange_rename previous_file current_file T i n n2 prevObj curObj
    hfindp hfindc hpt hct]


/-- Witness for C1: renaming configlet A to B with identical contents
yields removed = old A object, added = new B object, changed = []. -/
theorem c1_rename_is_remove_plus_add_witness :
    process_diff
      [("values_changed", DiffEntryBody.detailMap
        [([Seg.key "configlets", Seg.idx 0, Seg.key "name"],
          Yaml.dict [("old_value", Yaml.str "A"), ("new_value", Yaml.str "B")])])]
      (Yaml.dict [("configlets", Yaml.list
        [Yaml.dict [("name", Yaml.str "A"), ("x", Yaml.nat 1)],
         Yaml.dict [("name", Yaml.str "C"), ("x", Yaml.nat 2)]])])
      (Yaml.dict [("configlets", Yaml.list
        [Yaml.dict [("name", Yaml.str "B"), ("x", Yaml.nat 1)],
         Yaml.dict [("name", Yaml.str "C"), ("x", Yaml.nat 2)]])])
      none
      = [("configlets", Buckets.mk
          [Yaml.dict [("name", Yaml.str "B"), ("x", Yaml.nat 1)]] []
          [Yaml.dict [("name", Yaml.str "A"), ("x", Yaml.nat 1)]])] := by
  exact c1_rename_is_remove_plus_add
    (Yaml.dict [("configlets", Yaml.list
      [Yaml.dict [("name", Yaml.str "A"), ("x", Yaml.nat 1)],
       Yaml.dict [("name", Yaml.str "C"), ("x", Yaml.nat 2)]])])
    (Yaml.dict [("configlets", Yaml.list
      [Yaml.dict [("name", Yaml.str "B"), ("x", Yaml.nat 1)],
       Yaml.dict [("name", Yaml.str "C"), ("x", Yaml.nat 2)]])])
    "configlets" 0
    [Yaml.dict [("name", Yaml.str "A"), ("x", Yaml.nat 1)],
     Yaml.dict [("name", Yaml.str "C"), ("x", Yaml.nat 2)]]
    [Yaml.dict [("name", Yaml.str "B"), ("x", Yaml.nat 1)],
     Yaml.dict [("name", Yaml.str "C"), ("x", Yaml.nat 2)]]
    (Yaml.dict [("name", Yaml.str "A"), ("x", Yaml.nat 1)])
    (Yaml.dict [("name", Yaml.str "B"), ("x", Yaml.nat 1)])
    "A" "B"
    rfl rfl rfl rfl (by decide) rfl rfl (by decide)
    (fun key hk => by
      have hb : ("name" == key) = false := by
        rw [beq_eq_false_iff_ne]
        exact Ne.symm hk
      simp [Yaml.get?, List.find?, hb])
    (by decide) (by decide)

end APAF
